import Mathlib

/-!
Shallow embedding of the multi-tier cache engine of
`src/core/cache-manager.ts` (class `CacheManager` and its helpers).

Modelling conventions:
* JavaScript `Map` objects are modelled as association lists that keep
  insertion order (`JsMap`); `Map.set` on an existing key replaces the value
  in place, otherwise appends; `Map.delete` removes the key; iteration order
  is the list order.  All maps built by the operations have distinct keys.
* Timestamps (`Date.now()`) are natural numbers supplied explicitly to each
  operation; all `Date.now()` reads inside one operation return that same
  value (so intra-operation elapsed times are 0).
* Values are an opaque type `V`; `JSON.stringify`/`Buffer.byteLength` sizing
  and `gzip` output sizing are supplied by a `SerEnv` environment, and the
  gzip/JSON round trip is lossless, so a compressed payload is modelled by
  the original value.
* Awaited steps are modelled as running to completion in program order.
* The disk is a map from file paths to file contents; a path that is absent
  or maps to `DiskFile.corrupt` makes `fs.readFile`/`JSON.parse` fail, which
  the TypeScript code catches (`loadFromDisk` returns `null`).  Writes in
  the model always succeed.
* JavaScript numbers used as counters, sizes and times are modelled as `Nat`
  (they are non-negative in every reachable state); statistics that involve
  division (`hitRate`, averages, compression quotients, predictive scores)
  are modelled as `Rat`.
-/

/-- Cache priority levels (`enum CachePriority`), with their numeric values. -/
inductive CachePriority where
  | LOW
  | NORMAL
  | HIGH
  | CRITICAL
deriving DecidableEq, Repr

/-- Numeric value of a priority (`LOW = 1, NORMAL = 2, HIGH = 3, CRITICAL = 4`). -/
def CachePriority.toNat : CachePriority → Nat
  | .LOW => 1
  | .NORMAL => 2
  | .HIGH => 3
  | .CRITICAL => 4

/-- `entry.priority < CachePriority.HIGH`: the eligibility test used by
victim selection (numeric enum comparison). -/
def priBelowHigh (p : CachePriority) : Bool :=
  decide (p.toNat < CachePriority.HIGH.toNat)

/-- Cache tier of an entry (`level: 'l1' | 'l2' | 'l3'`). -/
inductive Level where
  | l1
  | l2
  | l3
deriving DecidableEq, Repr

/-- Eviction policy identifiers (`enum EvictionPolicyType`). -/
inductive EvictionPolicyType where
  | lru
  | lfu
  | fifo
  | filo
  | adaptive
deriving DecidableEq, Repr

/-- The two implemented policies; `createEvictionPolicy` maps `lru` to LRU,
`lfu` to LFU and everything else to LRU. -/
inductive Policy where
  | lru
  | lfu
deriving DecidableEq, Repr

/-- `createEvictionPolicy`: resolve the configured identifier to an
implemented policy (default branch returns LRU). -/
def createEvictionPolicy : EvictionPolicyType → Policy
  | .lru => .lru
  | .lfu => .lfu
  | _ => .lru

/-- A JavaScript `Map` with string keys, as an insertion-ordered
association list. -/
abbrev JsMap (β : Type) := List (String × β)

/-- `Map.get`. -/
def mapGet {β : Type} (m : JsMap β) (k : String) : Option β :=
  (m.find? (fun p => p.1 == k)).map (fun p => p.2)

/-- `Map.has` (also the truthiness test of `Map.get`). -/
def mapHas {β : Type} (m : JsMap β) (k : String) : Bool :=
  m.any (fun p => p.1 == k)

/-- `Map.set`: replace in place if the key is present, else append. -/
def mapSet {β : Type} (m : JsMap β) (k : String) (v : β) : JsMap β :=
  if mapHas m k then
    m.map (fun p => if p.1 == k then (k, v) else p)
  else
    m ++ [(k, v)]

/-- `Map.delete`. -/
def mapDelete {β : Type} (m : JsMap β) (k : String) : JsMap β :=
  m.filter (fun p => p.1 != k)

/-- The key set, in iteration order. -/
def mapKeys {β : Type} (m : JsMap β) : List String :=
  m.map (fun p => p.1)

/-- Update the value stored under a key in place (models mutating the entry
object that a `Map` holds). -/
def mapAdjust {β : Type} (m : JsMap β) (k : String) (f : β → β) : JsMap β :=
  m.map (fun p => if p.1 == k then (p.1, f p.2) else p)

/-- Cache entry metadata (`interface CacheEntry<T>`).  `value` is absent
exactly when the entry holds only a compressed payload
(`delete entry.value` after compression); `compressed` stores the payload,
modelled by the original value because gzip is lossless; `ttl = 0` plays the
role of the JavaScript falsy values (`0`/`undefined`). -/
structure CacheEntry (V : Type) where
  key : String
  value : Option V
  size : Nat
  priority : CachePriority
  created : Nat
  accessed : Nat
  hits : Nat
  ttl : Nat
  compressed : Option V
  level : Level
deriving DecidableEq, Repr

/-- Resolved cache configuration (`interface CacheConfig`). -/
structure CacheConfig where
  maxL1Size : Nat
  maxL2Size : Nat
  maxL3Size : Nat
  l3Directory : String
  compressionThreshold : Nat
  evictionPolicy : EvictionPolicyType
  defaultTtl : Nat
  enableDiskCache : Bool
  enableCompression : Bool
  maintenanceInterval : Nat
  accessPatternWindowSize : Nat
  predictiveCaching : Bool
deriving DecidableEq, Repr

/-- Constructor argument (`Partial<CacheConfig>`): absent fields are `none`. -/
structure CacheConfigInput where
  maxL1Size : Option Nat := none
  maxL2Size : Option Nat := none
  maxL3Size : Option Nat := none
  l3Directory : Option String := none
  compressionThreshold : Option Nat := none
  evictionPolicy : Option EvictionPolicyType := none
  defaultTtl : Option Nat := none
  enableDiskCache : Option Bool := none
  enableCompression : Option Bool := none
  maintenanceInterval : Option Nat := none
  accessPatternWindowSize : Option Nat := none
  predictiveCaching : Option Bool := none
deriving Repr

/-- JavaScript `x || d` for an optional number (absent and `0` are falsy). -/
def jsOrNat (x : Option Nat) (d : Nat) : Nat :=
  match x with
  | none => d
  | some 0 => d
  | some n => n

/-- JavaScript `x || d` for an optional string (absent and `""` are falsy). -/
def jsOrStr (x : Option String) (d : String) : String :=
  match x with
  | none => d
  | some s => if s = "" then d else s

/-- The configuration resolution performed by the `CacheManager`
constructor (each field via `||`, `enableDiskCache`/`enableCompression` via
`!== false`, `predictiveCaching` via `|| false`). -/
def mkConfig (c : CacheConfigInput) : CacheConfig where
  maxL1Size := jsOrNat c.maxL1Size 1000
  maxL2Size := jsOrNat c.maxL2Size 5000
  maxL3Size := jsOrNat c.maxL3Size 10000
  l3Directory := jsOrStr c.l3Directory "./cache"
  compressionThreshold := jsOrNat c.compressionThreshold 1024
  evictionPolicy := c.evictionPolicy.getD .lru
  defaultTtl := jsOrNat c.defaultTtl 3600000
  enableDiskCache := c.enableDiskCache.getD true
  enableCompression := c.enableCompression.getD true
  maintenanceInterval := jsOrNat c.maintenanceInterval 300000
  accessPatternWindowSize := jsOrNat c.accessPatternWindowSize 1000
  predictiveCaching := c.predictiveCaching.getD false

/-- Serialization environment: byte length of `JSON.stringify v`
(`serSize`), length of its gzip compression (`gzipSize`), and the hex
digest used for disk file names (`createHash('sha256')`, an arbitrary
deterministic string function). -/
structure SerEnv (V : Type) where
  serSize : V → Nat
  gzipSize : V → Nat
  hashHex : String → String

/-- The record serialized to a disk file by `demoteToL3`
(`{key, data, priority, created, ttl, compressed}`); `data` is
`entry.compressed || entry.value`. -/
structure DiskRecord (V : Type) where
  key : String
  data : V
  priority : CachePriority
  created : Nat
  ttl : Nat
  compressed : Bool
deriving DecidableEq, Repr

/-- Contents of a disk path: a readable serialized record, or contents on
which `fs.readFile`/`JSON.parse` fails. -/
inductive DiskFile (V : Type) where
  | good (r : DiskRecord V)
  | corrupt
deriving DecidableEq, Repr

/-- The mutable statistics counters (`this.stats`). -/
structure StatsCounters where
  totalHits : Nat
  totalMisses : Nat
  l1Hits : Nat
  l2Hits : Nat
  l3Hits : Nat
  evictions : Nat
  compressions : Nat
  decompressions : Nat
  diskWrites : Nat
  diskReads : Nat
deriving DecidableEq, Repr

def zeroStats : StatsCounters :=
  ⟨0, 0, 0, 0, 0, 0, 0, 0, 0, 0⟩

/-- The value returned by `getStats()`: the counters plus the derived
`hitRate`, `avgAccessTime` and `avgCompressionRatio` fields (the latter is
called `ratioAvg` here). -/
structure CacheStats where
  counters : StatsCounters
  hitRate : Rat
  avgAccessTime : Rat
  ratioAvg : Rat
deriving DecidableEq, Repr

/-- The full mutable state of a `CacheManager`: the three tiers, the disk
contents, statistics, the two rolling samples and the predictive scores. -/
structure CacheState (V : Type) where
  l1Cache : JsMap (CacheEntry V)
  l2Cache : JsMap (CacheEntry V)
  l3Index : JsMap String
  files : JsMap (DiskFile V)
  stats : StatsCounters
  accessTimes : List Nat
  compressionRatios : List Rat
  predictiveCache : JsMap Rat
deriving DecidableEq, Repr

/-- The state of a freshly constructed `CacheManager` (before any
maintenance tick). -/
def initState (V : Type) : CacheState V :=
  ⟨[], [], [], [], zeroStats, [], [], []⟩

/-- `push` followed by the conditional `shift()` that bounds a rolling
sample at `bound` entries. -/
def pushTrim {β : Type} (l : List β) (x : β) (bound : Nat) : List β :=
  let l' := l ++ [x]
  if l'.length > bound then l'.drop 1 else l'

/-- `createEntry`: build a fresh entry at the fast tier;
`ttl: ttl || this.config.defaultTtl`. -/
def createEntry {V : Type} (cfg : CacheConfig) (env : SerEnv V) (now : Nat)
    (k : String) (v : V) (p : CachePriority) (ttlArg : Option Nat) :
    CacheEntry V where
  key := k
  value := some v
  size := env.serSize v
  priority := p
  created := now
  accessed := now
  hits := 0
  ttl := jsOrNat ttlArg cfg.defaultTtl
  compressed := none
  level := .l1

/-- `isExpired`: `!entry.ttl` is never expired, else `now - created > ttl`. -/
def isExpired {V : Type} (now : Nat) (e : CacheEntry V) : Bool :=
  if e.ttl = 0 then false else decide (now - e.created > e.ttl)

/-- Policy `onAdd` bookkeeping (LRU stamps `accessed`; LFU also resets
`hits` to 1). -/
def polOnAdd {V : Type} (pol : Policy) (now : Nat) (e : CacheEntry V) :
    CacheEntry V :=
  match pol with
  | .lru => { e with accessed := now }
  | .lfu => { e with hits := 1, accessed := now }

/-- Policy `onAccess` bookkeeping (LRU stamps `accessed`; LFU also
increments `hits`). -/
def polOnAccess {V : Type} (pol : Policy) (now : Nat) (e : CacheEntry V) :
    CacheEntry V :=
  match pol with
  | .lru => { e with accessed := now }
  | .lfu => { e with hits := e.hits + 1, accessed := now }

/-- One step of the victim-selection scan: the accumulator holds the best
`(measure, key)` so far (`none` models `oldestTime = Infinity` with no
victim).  A candidate wins when it is below HIGH priority and its measure is
strictly smaller than the current best. -/
def victimStep {V : Type} (f : CacheEntry V → Nat)
    (acc : Option (Nat × String)) (kv : String × CacheEntry V) :
    Option (Nat × String) :=
  match acc with
  | none =>
      if priBelowHigh kv.2.priority then some (f kv.2, kv.1) else none
  | some (t, vk) =>
      if priBelowHigh kv.2.priority ∧ f kv.2 < t then some (f kv.2, kv.1)
      else some (t, vk)

/-- `selectVictim` generic over the measure (`accessed` for LRU, `hits` for
LFU): fold the scan over the tier in iteration order. -/
def selectVictimBy {V : Type} (f : CacheEntry V → Nat)
    (entries : JsMap (CacheEntry V)) : Option String :=
  (entries.foldl (victimStep f) none).map (fun p => p.2)

/-- `LRUPolicy.selectVictim` / `LFUPolicy.selectVictim`. -/
def selectVictim {V : Type} (pol : Policy) (entries : JsMap (CacheEntry V)) :
    Option String :=
  match pol with
  | .lru => selectVictimBy (fun e => e.accessed) entries
  | .lfu => selectVictimBy (fun e => e.hits) entries

/-- The policy object the manager dispatches through. -/
def activePolicy (cfg : CacheConfig) : Policy :=
  createEvictionPolicy cfg.evictionPolicy

/-- `enforceL3Size` loop body, with explicit fuel (each iteration removes
the oldest-registered disk entry, so `l3Index.length` rounds of fuel make
the loop run to its real exit). -/
def enforceL3Go {V : Type} (cfg : CacheConfig) :
    Nat → CacheState V → CacheState V
  | 0, s => s
  | fuel + 1, s =>
      if s.l3Index.length > cfg.maxL3Size then
        match s.l3Index with
        | [] => s
        | (oldestKey, filePath) :: _ =>
            let s := { s with files := mapDelete s.files filePath }
            let s := { s with l3Index := mapDelete s.l3Index oldestKey }
            let s := { s with stats := { s.stats with
                         evictions := s.stats.evictions + 1 } }
            enforceL3Go cfg fuel s
      else s

/-- `enforceL3Size`. -/
def enforceL3Size {V : Type} (cfg : CacheConfig) (s : CacheState V) :
    CacheState V :=
  enforceL3Go cfg s.l3Index.length s

/-- `demoteToL3`: serialize a record to a file named by the key hash,
register it in the disk index, and enforce the disk capacity.  Writes
always succeed in the model. -/
def demoteToL3 {V : Type} [Inhabited V] (cfg : CacheConfig) (env : SerEnv V)
    (e : CacheEntry V) (s : CacheState V) : CacheState V :=
  let e := { e with level := Level.l3 }
  let filePath := cfg.l3Directory ++ "/" ++ env.hashHex e.key ++ ".cache"
  let record : DiskRecord V :=
    { key := e.key
      data := (e.compressed.orElse (fun _ => e.value)).getD default
      priority := e.priority
      created := e.created
      ttl := e.ttl
      compressed := e.compressed.isSome }
  let s := { s with files := mapSet s.files filePath (.good record) }
  let s := { s with l3Index := mapSet s.l3Index e.key filePath }
  let s := { s with stats := { s.stats with
               diskWrites := s.stats.diskWrites + 1 } }
  enforceL3Size cfg s

/-- `enforceL2Size` loop body with fuel; each iteration deletes the victim
from L2 and, when disk persistence is on, demotes it to L3. -/
def enforceL2Go {V : Type} [Inhabited V] (cfg : CacheConfig) (env : SerEnv V) :
    Nat → CacheState V → CacheState V
  | 0, s => s
  | fuel + 1, s =>
      if s.l2Cache.length > cfg.maxL2Size then
        match selectVictim (activePolicy cfg) s.l2Cache with
        | none => s
        | some victimKey =>
            match mapGet s.l2Cache victimKey with
            | none => s
            | some victim =>
                let s := { s with l2Cache := mapDelete s.l2Cache victimKey }
                let s := if cfg.enableDiskCache
                  then demoteToL3 cfg env victim s else s
                let s := { s with stats := { s.stats with
                             evictions := s.stats.evictions + 1 } }
                enforceL2Go cfg env fuel s
      else s

/-- `enforceL2Size`. -/
def enforceL2Size {V : Type} [Inhabited V] (cfg : CacheConfig)
    (env : SerEnv V) (s : CacheState V) : CacheState V :=
  enforceL2Go cfg env s.l2Cache.length s

/-- `demoteToL2`: mark the entry L2, compress when enabled and large enough
(recording the compression quotient into the sample bounded at the literal
100), insert into L2 and enforce its capacity.  An L1 victim always holds
its raw value, so the `none` branch of the inner match is unreachable. -/
def demoteToL2 {V : Type} [Inhabited V] (cfg : CacheConfig) (env : SerEnv V)
    (e : CacheEntry V) (s : CacheState V) : CacheState V :=
  let e := { e with level := Level.l2 }
  let es : CacheEntry V × CacheState V :=
    if cfg.enableCompression ∧ e.size > cfg.compressionThreshold then
      match e.value with
      | some v =>
          let q : Rat := (env.serSize v : Rat) / (env.gzipSize v : Rat)
          let s := { s with compressionRatios :=
                       pushTrim s.compressionRatios q 100 }
          let s := { s with stats := { s.stats with
                       compressions := s.stats.compressions + 1 } }
          ({ e with compressed := some v, value := none }, s)
      | none => (e, s)
    else (e, s)
  let e := es.1
  let s := es.2
  let s := { s with l2Cache := mapSet s.l2Cache e.key e }
  enforceL2Size cfg env s

/-- `enforceL1Size` loop body with fuel; each iteration deletes the victim
from L1 and demotes it to L2. -/
def enforceL1Go {V : Type} [Inhabited V] (cfg : CacheConfig) (env : SerEnv V) :
    Nat → CacheState V → CacheState V
  | 0, s => s
  | fuel + 1, s =>
      if s.l1Cache.length > cfg.maxL1Size then
        match selectVictim (activePolicy cfg) s.l1Cache with
        | none => s
        | some victimKey =>
            match mapGet s.l1Cache victimKey with
            | none => s
            | some victim =>
                let s := { s with l1Cache := mapDelete s.l1Cache victimKey }
                let s := demoteToL2 cfg env victim s
                let s := { s with stats := { s.stats with
                             evictions := s.stats.evictions + 1 } }
                enforceL1Go cfg env fuel s
      else s

/-- `enforceL1Size`. -/
def enforceL1Size {V : Type} [Inhabited V] (cfg : CacheConfig)
    (env : SerEnv V) (s : CacheState V) : CacheState V :=
  enforceL1Go cfg env s.l1Cache.length s

/-- `promoteToL1`: remove the entry from its current tier (L2 map, or disk
index and backing file — unlink errors are ignored), mark it L1, insert
with `onAdd` bookkeeping and enforce the L1 capacity. -/
def promoteToL1 {V : Type} [Inhabited V] (cfg : CacheConfig) (env : SerEnv V)
    (now : Nat) (e : CacheEntry V) (s : CacheState V) : CacheState V :=
  let s :=
    match e.level with
    | .l2 => { s with l2Cache := mapDelete s.l2Cache e.key }
    | .l3 =>
        match mapGet s.l3Index e.key with
        | some diskPath =>
            let s := { s with files := mapDelete s.files diskPath }
            { s with l3Index := mapDelete s.l3Index e.key }
        | none => s
    | .l1 => s
  let e := { e with level := Level.l1 }
  let e := polOnAdd (activePolicy cfg) now e
  let s := { s with l1Cache := mapSet s.l1Cache e.key e }
  enforceL1Size cfg env s

/-- `recordHit` statistics bumps: total and per-level counters, the rolling
access-time sample (intra-operation elapsed time is 0 in the model), and
the entry-object mutation `hits++; accessed = now` followed by the policy
`onAccess` — applied to the entry for `k` wherever it is now stored
(the TypeScript code mutates the shared entry object). -/
def recordHitFor {V : Type} (cfg : CacheConfig) (now : Nat) (lvl : Level)
    (k : String) (s : CacheState V) : CacheState V :=
  let pol := activePolicy cfg
  let touch := fun (e : CacheEntry V) =>
    polOnAccess pol now { e with hits := e.hits + 1, accessed := now }
  let st := { s.stats with totalHits := s.stats.totalHits + 1 }
  let st :=
    match lvl with
    | .l1 => { st with l1Hits := st.l1Hits + 1 }
    | .l2 => { st with l2Hits := st.l2Hits + 1 }
    | .l3 => { st with l3Hits := st.l3Hits + 1 }
  let s := { s with stats := st }
  let s := { s with accessTimes :=
               pushTrim s.accessTimes 0 cfg.accessPatternWindowSize }
  if mapHas s.l1Cache k then
    { s with l1Cache := mapAdjust s.l1Cache k touch }
  else if mapHas s.l2Cache k then
    { s with l2Cache := mapAdjust s.l2Cache k touch }
  else s

/-- `recordMiss`: bump the miss counter and the rolling access-time
sample. -/
def recordMissFor {V : Type} (cfg : CacheConfig) (s : CacheState V) :
    CacheState V :=
  let s := { s with stats := { s.stats with
               totalMisses := s.stats.totalMisses + 1 } }
  { s with accessTimes :=
      pushTrim s.accessTimes 0 cfg.accessPatternWindowSize }

/-- `loadFromDisk`: read and parse the file (failures are caught and yield
`none`), delete the file and yield `none` when the record is expired,
count a decompression when the payload was stored compressed, and count the
disk read. -/
def loadFromDisk {V : Type} (now : Nat) (filePath : String)
    (s : CacheState V) : Option (DiskRecord V) × CacheState V :=
  match mapGet s.files filePath with
  | none => (none, s)
  | some .corrupt => (none, s)
  | some (.good r) =>
      if r.ttl ≠ 0 ∧ now - r.created > r.ttl then
        (none, { s with files := mapDelete s.files filePath })
      else
        let s :=
          if r.compressed then
            { s with stats := { s.stats with
                decompressions := s.stats.decompressions + 1 } }
          else s
        (some r, { s with stats := { s.stats with
                     diskReads := s.stats.diskReads + 1 } })

/-- The disk-tier phase of `get`: load the record (rebuilding a fresh
entry via `createEntry` without a TTL argument, promoting it, and counting
an L3 hit) or record a miss.  `loadFromDisk` never throws, so the catch
block of this branch in the source (which would delete the stale index
entry) never runs. -/
def getL3Branch {V : Type} [Inhabited V] (cfg : CacheConfig) (env : SerEnv V)
    (now : Nat) (k : String) (s : CacheState V) :
    Option V × CacheState V :=
  if cfg.enableDiskCache then
    match mapGet s.l3Index k with
    | some diskPath =>
        let rs := loadFromDisk now diskPath s
        match rs.1 with
        | some r =>
            let e := createEntry cfg env now k r.data r.priority none
            let s := promoteToL1 cfg env now e rs.2
            let s := recordHitFor cfg now .l3 k s
            (some r.data, s)
        | none => (none, recordMissFor cfg rs.2)
    | none => (none, recordMissFor cfg s)
  else (none, recordMissFor cfg s)

/-- The compressed-tier phase of `get`: on a non-expired hit decompress
when needed, promote to the fast tier and count an L2 hit; expired or
absent entries fall through to the disk phase (an expired entry is not
removed). -/
def getL2Branch {V : Type} [Inhabited V] (cfg : CacheConfig) (env : SerEnv V)
    (now : Nat) (k : String) (s : CacheState V) :
    Option V × CacheState V :=
  match mapGet s.l2Cache k with
  | some e =>
      if isExpired now e then getL3Branch cfg env now k s
      else
        let es : CacheEntry V × CacheState V :=
          match e.compressed with
          | some c =>
              ({ e with value := some c, compressed := none },
               { s with stats := { s.stats with
                   decompressions := s.stats.decompressions + 1 } })
          | none => (e, s)
        let s := promoteToL1 cfg env now es.1 es.2
        let s := recordHitFor cfg now .l2 k s
        (es.1.value, s)
  | none => getL3Branch cfg env now k s

/-- `get`: fast tier first (an expired fast-tier entry falls through as a
miss without being removed), then the compressed tier, then the disk
tier. -/
def getOp {V : Type} [Inhabited V] (cfg : CacheConfig) (env : SerEnv V)
    (now : Nat) (k : String) (s : CacheState V) :
    Option V × CacheState V :=
  match mapGet s.l1Cache k with
  | some e =>
      if isExpired now e then getL2Branch cfg env now k s
      else
        (e.value, recordHitFor cfg now .l1 k s)
  | none => getL2Branch cfg env now k s

/-- `updatePredictiveCache`: bump the score of the key's prefix pattern
(`key.split(':')[0]`; a missing score is 0). -/
def updatePredictiveKey (m : JsMap Rat) (k : String) : JsMap Rat :=
  let statPattern := (k.splitOn ":").headD ""
  mapSet m statPattern ((mapGet m statPattern).getD 0 + 1)

/-- `set`: build the entry (then `onAdd` bookkeeping mutates it in the L1
map), insert into L1, enforce the L1 capacity, and update the predictive
scores when enabled. -/
def setOp {V : Type} [Inhabited V] (cfg : CacheConfig) (env : SerEnv V)
    (now : Nat) (k : String) (v : V) (p : CachePriority)
    (ttlArg : Option Nat) (s : CacheState V) : CacheState V :=
  let e := createEntry cfg env now k v p ttlArg
  let e := polOnAdd (activePolicy cfg) now e
  let s := { s with l1Cache := mapSet s.l1Cache k e }
  let s := enforceL1Size cfg env s
  if cfg.predictiveCaching then
    { s with predictiveCache := updatePredictiveKey s.predictiveCache k }
  else s

/-- `delete`: remove from both memory tiers; for a disk-resident key unlink
the backing file and, only when the unlink succeeds, drop the index entry
(an unlink failure is caught and leaves the index entry behind). -/
def deleteOp {V : Type} (k : String) (s : CacheState V) :
    Bool × CacheState V :=
  let deleted := mapHas s.l1Cache k || mapHas s.l2Cache k
  let s := { s with l1Cache := mapDelete s.l1Cache k }
  let s := { s with l2Cache := mapDelete s.l2Cache k }
  match mapGet s.l3Index k with
  | some diskPath =>
      if mapHas s.files diskPath then
        (true,
         { s with files := mapDelete s.files diskPath,
                  l3Index := mapDelete s.l3Index k })
      else (deleted, s)
  | none => (deleted, s)

/-- `clear`: empty both memory tiers; when disk persistence is on, unlink
every indexed file (errors per file are caught) and empty the index; reset
the statistics counters.  The rolling samples and the predictive scores are
not touched. -/
def clearOp {V : Type} (cfg : CacheConfig) (s : CacheState V) :
    CacheState V :=
  let s := { s with l1Cache := [], l2Cache := [] }
  let s :=
    if cfg.enableDiskCache then
      let files := s.l3Index.foldl (fun fs p => mapDelete fs p.2) s.files
      { s with files := files, l3Index := [] }
    else s
  { s with stats := zeroStats }

/-- `getStats`: counters plus derived `hitRate` and the two rolling-sample
averages (0 on empty samples). -/
def getStats {V : Type} (s : CacheState V) : CacheStats :=
  let totalAccesses := s.stats.totalHits + s.stats.totalMisses
  let hitRate : Rat :=
    if totalAccesses > 0 then (s.stats.totalHits : Rat) / (totalAccesses : Rat)
    else 0
  let avgAccessTime : Rat :=
    if s.accessTimes.length > 0 then
      ((s.accessTimes.map (fun n => (n : Rat))).sum) / (s.accessTimes.length : Rat)
    else 0
  let ratioAvg : Rat :=
    if s.compressionRatios.length > 0 then
      s.compressionRatios.sum / (s.compressionRatios.length : Rat)
    else 0
  ⟨s.stats, hitRate, avgAccessTime, ratioAvg⟩

/-- `getSizes`. -/
def getSizes {V : Type} (s : CacheState V) : Nat × Nat × Nat :=
  (s.l1Cache.length, s.l2Cache.length, s.l3Index.length)

/-- `updatePredictiveScores`: one maintenance decay pass — scores above 1
are multiplied by 0.9 in place, scores at or below 1 are removed (the
threshold test reads the score before the decay). -/
def updatePredictiveScores (m : JsMap Rat) : JsMap Rat :=
  m.filterMap (fun p =>
    if (1 : Rat) < p.2 then some (p.1, p.2 * (9 / 10 : Rat)) else none)

/-- The L3 part of `cleanExpiredEntries`: walk the index snapshot, load
each backing file, and drop the index entry whenever the load fails or the
record is expired. -/
def sweepL3 {V : Type} (now : Nat) :
    List (String × String) → CacheState V → CacheState V
  | [], s => s
  | (k, filePath) :: rest, s =>
      let rs := loadFromDisk now filePath s
      let s :=
        if rs.1.isNone then { rs.2 with l3Index := mapDelete rs.2.l3Index k }
        else rs.2
      sweepL3 now rest s

/-- `cleanExpiredEntries`: delete expired entries from both memory tiers,
then sweep the disk index. -/
def cleanExpiredEntries {V : Type} (now : Nat) (s : CacheState V) :
    CacheState V :=
  let s := { s with l1Cache := s.l1Cache.filter (fun p => !isExpired now p.2) }
  let s := { s with l2Cache := s.l2Cache.filter (fun p => !isExpired now p.2) }
  sweepL3 now s.l3Index s

/-- `runMaintenance`: sweep expired entries, then decay the predictive
scores when predictive caching is enabled. -/
def runMaintenance {V : Type} (cfg : CacheConfig) (now : Nat)
    (s : CacheState V) : CacheState V :=
  let s := cleanExpiredEntries now s
  if cfg.predictiveCaching then
    { s with predictiveCache := updatePredictiveScores s.predictiveCache }
  else s

/-- One caller-driven operation against the cache, with its clock value. -/
inductive CacheOp (V : Type) where
  | set (now : Nat) (k : String) (v : V) (p : CachePriority)
      (ttlArg : Option Nat)
  | get (now : Nat) (k : String)
  | del (k : String)
  | clear
  | maintain (now : Nat)

/-- Interpret one operation (dropping returned values). -/
def step {V : Type} [Inhabited V] (cfg : CacheConfig) (env : SerEnv V)
    (s : CacheState V) : CacheOp V → CacheState V
  | .set now k v p ttlArg => setOp cfg env now k v p ttlArg s
  | .get now k => (getOp cfg env now k s).2
  | .del k => (deleteOp k s).2
  | .clear => clearOp cfg s
  | .maintain now => runMaintenance cfg now s

/-- Run a sequence of operations from the initial state. -/
def runOps {V : Type} [Inhabited V] (cfg : CacheConfig) (env : SerEnv V)
    (ops : List (CacheOp V)) : CacheState V :=
  ops.foldl (step cfg env) (initState V)


/-- Spec-side rendering of the LRU victim rule of section 4.1: among the
entries whose priority is below HIGH (HIGH/CRITICAL are exempt), pick the
one with the oldest `accessed` timestamp, the first such entry in iteration
order winning ties; none when every entry is exempt. -/
def lruVictimSpec {V : Type} (entries : JsMap (CacheEntry V)) :
    Option String :=
  let elig := entries.filter (fun p => priBelowHigh p.2.priority)
  (elig.find? (fun p =>
      elig.all (fun q => decide (p.2.accessed ≤ q.2.accessed)))).map
    (fun p => p.1)

/-- Fast-tier capacity condition: at most `maxL1Size` entries, except that
the tier may overflow when every resident entry is eviction-exempt. -/
def l1CapOk {V : Type} (cfg : CacheConfig) (s : CacheState V) : Prop :=
  s.l1Cache.length ≤ cfg.maxL1Size ∨
    ∀ kv ∈ s.l1Cache, priBelowHigh kv.2.priority = false

/-- Compressed-tier capacity condition, as for the fast tier. -/
def l2CapOk {V : Type} (cfg : CacheConfig) (s : CacheState V) : Prop :=
  s.l2Cache.length ≤ cfg.maxL2Size ∨
    ∀ kv ∈ s.l2Cache, priBelowHigh kv.2.priority = false

/-- Disk-index capacity condition (the disk tier has no pinning). -/
def l3CapOk {V : Type} (cfg : CacheConfig) (s : CacheState V) : Prop :=
  s.l3Index.length ≤ cfg.maxL3Size

/-- A key is resident in at most one tier. -/
def tierUnique {V : Type} (s : CacheState V) : Prop :=
  (∀ k, k ∈ mapKeys s.l1Cache → k ∉ mapKeys s.l2Cache) ∧
  (∀ k, k ∈ mapKeys s.l1Cache → k ∉ mapKeys s.l3Index) ∧
  (∀ k, k ∈ mapKeys s.l2Cache → k ∉ mapKeys s.l3Index)

/-- Bookkeeping consistency of the in-memory tiers: every stored entry
records the key it is stored under and the tier it lives in (true in every
reachable state; the promotion switch relies on it). -/
def stateWF {V : Type} (s : CacheState V) : Prop :=
  (∀ kv ∈ s.l1Cache, (kv.2).key = kv.1) ∧
  (∀ kv ∈ s.l2Cache, (kv.2).key = kv.1 ∧ (kv.2).level = Level.l2)

/-- The side condition under which one operation preserves single-tier
residency: a `set` must not target a key currently resident in a colder
tier, and a `get` must not be resolved from the disk tier (both are exactly
the situations in which the code duplicates an entry). -/
def stepSafe {V : Type} (cfg : CacheConfig) (s : CacheState V) :
    CacheOp V → Prop
  | .set _ k _ _ _ => k ∉ mapKeys s.l2Cache ∧ k ∉ mapKeys s.l3Index
  | .get _ k => cfg.enableDiskCache = false ∨ mapGet s.l3Index k = none
  | _ => True

/-- Both rolling samples within their bounds: the access-time sample within
the configured window, the compression sample within the hard-coded 100. -/
def samplesOk {V : Type} (cfg : CacheConfig) (s : CacheState V) : Prop :=
  s.accessTimes.length ≤ cfg.accessPatternWindowSize ∧
  s.compressionRatios.length ≤ 100

/-- One `set` call: clock value, key, value, priority, optional TTL. -/
structure SetCall (V : Type) where
  now : Nat
  key : String
  value : V
  priority : CachePriority
  ttlArg : Option Nat

/-- Run a sequence of `set` calls from the initial state. -/
def runSets {V : Type} [Inhabited V] (cfg : CacheConfig) (env : SerEnv V)
    (calls : List (SetCall V)) : CacheState V :=
  calls.foldl
    (fun s c => setOp cfg env c.now c.key c.value c.priority c.ttlArg s)
    (initState V)

/-- Combined well-formedness: bookkeeping consistency plus single-tier
residency. -/
def wfUniq {V : Type} (s : CacheState V) : Prop :=
  stateWF s ∧ tierUnique s

/-- Concrete fixture environment: every value serializes to 1 byte (below
any compression threshold used here) and hashes are the identity. -/
def envFix : SerEnv Nat :=
  ⟨fun _ => 1, fun _ => 1, fun s0 => s0⟩

/-- Concrete fixture environment with large values: 10 serialized bytes,
compressed to 5. -/
def envFixBig : SerEnv Nat :=
  ⟨fun _ => 10, fun _ => 5, fun s0 => s0⟩

/-- Fixture configuration: fast tier of capacity 1, disk tier disabled,
all other options left at their defaults. -/
def cfgTiny : CacheConfig :=
  mkConfig { maxL1Size := some 1, enableDiskCache := some false }

/-- Fixture configuration: all defaults (disk cache enabled). -/
def cfgDefault : CacheConfig :=
  mkConfig {}

/-- Fixture configuration: capacities 1/1, LFU eviction, disk disabled. -/
def cfgLfu : CacheConfig :=
  mkConfig { maxL1Size := some 1, maxL2Size := some 1, evictionPolicy := some EvictionPolicyType.lfu, enableDiskCache := some false }

/-- Fixture configuration: fast capacity 1, compression threshold 1 byte,
disk disabled. -/
def cfgCompress : CacheConfig :=
  mkConfig { maxL1Size := some 1, compressionThreshold := some 1, enableDiskCache := some false }

/-- Fixture configuration: as `cfgCompress` but with a rolling-sample
window of 1. -/
def cfgWin1 : CacheConfig :=
  mkConfig { maxL1Size := some 1, compressionThreshold := some 1, accessPatternWindowSize := some 1, enableDiskCache := some false }

/-- Fixture state: the disk index registers key `k`, but its backing file
is missing from the disk (an I/O fault: the read throws). -/
def stateDiskStale : CacheState Nat :=
  ⟨[], [], [("k", "./cache/deadbeef.cache")], [], zeroStats, [], [], []⟩

/-! ### Association-list (JavaScript `Map`) lemmas -/

theorem mapHas_iff_mem {β : Type} {m : JsMap β} {k : String} :
    mapHas m k = true ↔ k ∈ mapKeys m := by
  simp only [mapHas, List.any_eq_true, beq_iff_eq, mapKeys, List.mem_map]

theorem mapHas_cons {β : Type} {p : String × β} {t : JsMap β} {k : String} :
    mapHas (p :: t) k = (p.1 == k || mapHas t k) := by
  simp [mapHas]

theorem mapGet_eq_some_mem {β : Type} {m : JsMap β} {k : String} {v : β}
    (h : mapGet m k = some v) : k ∈ mapKeys m := by
  simp only [mapGet, Option.map_eq_some'] at h
  obtain ⟨p, hp, hv⟩ := h
  have hmem := List.mem_of_find?_eq_some hp
  have hk := List.find?_some hp
  simp only [beq_iff_eq] at hk
  simp only [mapKeys, List.mem_map]
  exact ⟨p, hmem, hk⟩

theorem mem_exists_mapGet {β : Type} {m : JsMap β} {k : String}
    (h : k ∈ mapKeys m) : ∃ v, mapGet m k = some v := by
  simp only [mapKeys, List.mem_map] at h
  obtain ⟨p, hp, hk⟩ := h
  have : (List.find? (fun p => p.1 == k) m).isSome = true := by
    rw [List.find?_isSome]
    exact ⟨p, hp, by simp [hk]⟩
  obtain ⟨q, hq⟩ := Option.isSome_iff_exists.mp this
  exact ⟨q.2, by simp [mapGet, hq]⟩

theorem mapKeys_mapDelete {β : Type} {m : JsMap β} {k a : String} :
    a ∈ mapKeys (mapDelete m k) ↔ a ∈ mapKeys m ∧ a ≠ k := by
  simp only [mapDelete, mapKeys, List.mem_map, List.mem_filter, bne_iff_ne]
  constructor
  · rintro ⟨p, ⟨hp, hne⟩, ha⟩
    subst ha
    exact ⟨⟨p, hp, rfl⟩, hne⟩
  · rintro ⟨⟨p, hp, ha⟩, hne⟩
    subst ha
    exact ⟨p, ⟨hp, hne⟩, rfl⟩

theorem mapKeys_mapSet {β : Type} {m : JsMap β} {k a : String} {v : β} :
    a ∈ mapKeys (mapSet m k v) ↔ a ∈ mapKeys m ∨ a = k := by
  simp only [mapSet]
  split
  · rename_i hhas
    have hk : k ∈ mapKeys m := mapHas_iff_mem.mp hhas
    simp only [mapKeys, List.mem_map, List.map_map] at *
    constructor
    · rintro ⟨p, hp, ha⟩
      simp only [Function.comp] at ha
      by_cases hpk : p.1 = k
      · simp only [hpk, beq_self_eq_true, if_pos] at ha
        right; exact ha.symm
      · simp only [beq_iff_eq, hpk, if_neg, if_false] at ha
        left; exact ⟨p, hp, ha⟩
    · rintro (⟨p, hp, ha⟩ | rfl)
      · subst ha
        refine ⟨p, hp, ?_⟩
        simp only [Function.comp]
        by_cases hpk : p.1 = k
        · simp [hpk]
        · simp [hpk]
      · obtain ⟨p, hp, hpk⟩ := hk
        refine ⟨p, hp, ?_⟩
        simp [Function.comp, hpk]
  · simp [mapKeys]

theorem mapKeys_mapAdjust {β : Type} {m : JsMap β} {k : String}
    {f : β → β} : mapKeys (mapAdjust m k f) = mapKeys m := by
  simp only [mapAdjust, mapKeys, List.map_map]
  apply List.map_congr_left
  intro p _
  by_cases hpk : p.1 = k <;> simp [Function.comp, hpk]

theorem mapGet_mapSet_self {β : Type} {m : JsMap β} {k : String} {v : β} :
    mapGet (mapSet m k v) k = some v := by
  simp only [mapSet]
  split
  · rename_i hhas
    induction m with
    | nil => simp [mapHas] at hhas
    | cons p t ih =>
        by_cases hpk : p.1 = k
        · simp [mapGet, List.find?_cons, hpk]
        · have hhas' : mapHas t k = true := by
            simp only [mapHas, List.any_cons] at hhas
            rcases Bool.or_eq_true_iff.mp hhas with h | h
            · exact absurd (by simpa using h) hpk
            · exact h
          have := ih hhas'
          simpa [mapGet, List.find?_cons, hpk] using this
  · induction m with
    | nil => simp [mapGet]
    | cons p t ih =>
        rename_i hhas
        have hpk : ¬ p.1 = k := by
          intro h
          apply hhas
          rw [mapHas_cons]
          simp [h]
        have hhas' : ¬ mapHas t k = true := by
          intro h
          apply hhas
          rw [mapHas_cons]
          simp [h]
        simpa [mapGet, List.find?_cons, hpk] using ih hhas'

theorem length_mapSet {β : Type} {m : JsMap β} {k : String} {v : β} :
    (mapSet m k v).length =
      if mapHas m k then m.length else m.length + 1 := by
  simp only [mapSet]
  split <;> simp

theorem length_mapDelete_le {β : Type} {m : JsMap β} {k : String} :
    (mapDelete m k).length ≤ m.length :=
  List.length_filter_le _ m

theorem length_mapDelete_lt {β : Type} {m : JsMap β} {k : String}
    (h : k ∈ mapKeys m) : (mapDelete m k).length < m.length := by
  simp only [mapKeys, List.mem_map] at h
  obtain ⟨p, hp, hk⟩ := h
  simp only [mapDelete]
  rw [List.length_filter_lt_length_iff_exists]
  exact ⟨p, hp, by simp [bne_iff_ne, hk]⟩

/-! ### Victim-selection lemmas -/

theorem victimStep_not_elig {V : Type} {f : CacheEntry V → Nat}
    {acc : Option (Nat × String)} {kv : String × CacheEntry V}
    (h : priBelowHigh kv.2.priority = false) :
    victimStep f acc kv = acc := by
  cases acc with
  | none => simp [victimStep, h]
  | some pr => cases pr with
    | mk t0 k0 => simp [victimStep, h]

theorem victimFold_isSome {V : Type} {f : CacheEntry V → Nat}
    (l : List (String × CacheEntry V)) (pr : Nat × String) :
    (l.foldl (victimStep f) (some pr)).isSome = true := by
  induction l generalizing pr with
  | nil => simp
  | cons kv t ih =>
      rw [List.foldl_cons]
      by_cases h : priBelowHigh kv.2.priority = true
      · cases pr with
        | mk t0 k0 =>
          simp only [victimStep]
          split
          · exact ih _
          · exact ih _
      · rw [victimStep_not_elig (by simpa using h)]
        exact ih _

theorem victimFold_none {V : Type} {f : CacheEntry V → Nat}
    {l : List (String × CacheEntry V)} {acc : Option (Nat × String)}
    (h : l.foldl (victimStep f) acc = none) :
    acc = none ∧ ∀ kv ∈ l, priBelowHigh kv.2.priority = false := by
  induction l generalizing acc with
  | nil => exact ⟨h, by simp⟩
  | cons kv t ih =>
      rw [List.foldl_cons] at h
      obtain ⟨hstep, hall⟩ := ih h
      by_cases he : priBelowHigh kv.2.priority = true
      · exfalso
        cases acc with
        | none => simp [victimStep, he] at hstep
        | some pr =>
            cases pr with
            | mk t0 k0 =>
              simp only [victimStep] at hstep
              split at hstep <;> simp at hstep
      · have hacc : acc = none := by
          rw [victimStep_not_elig (by simpa using he)] at hstep
          exact hstep
        refine ⟨hacc, ?_⟩
        intro q hq
        rcases List.mem_cons.mp hq with rfl | hq
        · simpa using he
        · exact hall q hq

theorem victimFold_all_exempt {V : Type} {f : CacheEntry V → Nat}
    {l : List (String × CacheEntry V)} (acc : Option (Nat × String))
    (h : ∀ kv ∈ l, priBelowHigh kv.2.priority = false) :
    l.foldl (victimStep f) acc = acc := by
  induction l generalizing acc with
  | nil => simp
  | cons kv t ih =>
      rw [List.foldl_cons, victimStep_not_elig (h kv (by simp))]
      exact ih acc (fun q hq => h q (List.mem_cons_of_mem _ hq))

theorem selectVictimBy_none_iff {V : Type} {f : CacheEntry V → Nat}
    {m : JsMap (CacheEntry V)} :
    selectVictimBy f m = none ↔
      ∀ kv ∈ m, priBelowHigh kv.2.priority = false := by
  constructor
  · intro h
    simp only [selectVictimBy, Option.map_eq_none'] at h
    exact (victimFold_none h).2
  · intro h
    simp only [selectVictimBy, victimFold_all_exempt none h, Option.map_none']

theorem selectVictim_none_iff {V : Type} {pol : Policy}
    {m : JsMap (CacheEntry V)} :
    selectVictim pol m = none ↔
      ∀ kv ∈ m, priBelowHigh kv.2.priority = false := by
  cases pol <;> exact selectVictimBy_none_iff

theorem victimFold_some_key_mem {V : Type} {f : CacheEntry V → Nat}
    {l : List (String × CacheEntry V)} {acc : Option (Nat × String)}
    {pr : Nat × String} (h : l.foldl (victimStep f) acc = some pr) :
    acc = some pr ∨ pr.2 ∈ mapKeys l := by
  induction l generalizing acc with
  | nil => exact Or.inl h
  | cons kv t ih =>
      rw [List.foldl_cons] at h
      rcases ih h with hstep | hmem
      · cases acc with
        | none =>
            simp only [victimStep] at hstep
            split at hstep
            · right
              have : pr.2 = kv.1 := by
                cases pr
                simp at hstep
                simp [hstep.2.symm]
              simp [mapKeys, this]
            · exact absurd hstep (by simp)
        | some a =>
            cases a with
            | mk t0 k0 =>
              simp only [victimStep] at hstep
              split at hstep
              · right
                have : pr.2 = kv.1 := by
                  cases pr
                  simp at hstep
                  simp [hstep.2.symm]
                simp [mapKeys, this]
              · left; exact hstep
      · right
        simp only [mapKeys, List.map_cons, List.mem_cons]
        right
        simpa [mapKeys] using hmem

theorem selectVictim_some_mem {V : Type} {pol : Policy}
    {m : JsMap (CacheEntry V)} {k : String}
    (h : selectVictim pol m = some k) : k ∈ mapKeys m := by
  have hby : ∃ f, selectVictimBy f m = some k := by
    cases pol with
    | lru => exact ⟨fun e => e.accessed, h⟩
    | lfu => exact ⟨fun e => e.hits, h⟩
  obtain ⟨f, hf⟩ := hby
  simp only [selectVictimBy, Option.map_eq_some'] at hf
  obtain ⟨pr, hpr, hk⟩ := hf
  rcases victimFold_some_key_mem hpr with habs | hmem
  · simp at habs
  · rw [← hk]; exact hmem

/-! ### Characterization of the victim scan for the C8 refinement -/

theorem victimFold_keep {V : Type} {f : CacheEntry V → Nat}
    {l : List (String × CacheEntry V)} {t0 : Nat} {k0 : String}
    (h : ∀ kv ∈ l, priBelowHigh kv.2.priority = true → ¬ f kv.2 < t0) :
    l.foldl (victimStep f) (some (t0, k0)) = some (t0, k0) := by
  induction l with
  | nil => simp
  | cons kv t ih =>
      rw [List.foldl_cons]
      have hstep : victimStep f (some (t0, k0)) kv = some (t0, k0) := by
        simp only [victimStep]
        split
        · rename_i hc
          exact absurd hc.2 (h kv (by simp) hc.1)
        · rfl
      rw [hstep]
      exact ih (fun q hq => h q (List.mem_cons_of_mem _ hq))

theorem victimFold_beaten {V : Type} {f : CacheEntry V → Nat}
    {l : List (String × CacheEntry V)}
    (helig : ∀ kv ∈ l, priBelowHigh kv.2.priority = true) :
    ∀ t0 k0, (∃ q ∈ l, f q.2 < t0) →
      l.foldl (victimStep f) (some (t0, k0)) =
        l.foldl (victimStep f) none := by
  induction l with
  | nil =>
      intro t0 k0 h
      simp at h
  | cons kv t ih =>
      intro t0 k0 h
      have hkv : priBelowHigh kv.2.priority = true := helig kv (by simp)
      have helig' : ∀ q ∈ t, priBelowHigh q.2.priority = true :=
        fun q hq => helig q (List.mem_cons_of_mem _ hq)
      rw [List.foldl_cons, List.foldl_cons]
      by_cases hbeat : f kv.2 < t0
      · have h1 : victimStep f (some (t0, k0)) kv = some (f kv.2, kv.1) := by
          simp [victimStep, hkv, hbeat]
        have h2 : victimStep f none kv = some (f kv.2, kv.1) := by
          simp [victimStep, hkv]
        rw [h1, h2]
      · have h1 : victimStep f (some (t0, k0)) kv = some (t0, k0) := by
          simp only [victimStep]
          split
          · rename_i hc
            exact absurd hc.2 hbeat
          · rfl
        have h2 : victimStep f none kv = some (f kv.2, kv.1) := by
          simp [victimStep, hkv]
        rw [h1, h2]
        obtain ⟨q, hq, hqlt⟩ := h
        have hqt : q ∈ t := by
          rcases List.mem_cons.mp hq with rfl | hqt
          · exact absurd hqlt hbeat
          · exact hqt
        have hq1 : t.foldl (victimStep f) (some (t0, k0)) =
            t.foldl (victimStep f) none :=
          ih helig' t0 k0 ⟨q, hqt, hqlt⟩
        have hq2 : t.foldl (victimStep f) (some (f kv.2, kv.1)) =
            t.foldl (victimStep f) none := by
          apply ih helig' (f kv.2) kv.1
          refine ⟨q, hqt, ?_⟩
          omega
        rw [hq1, hq2]

theorem victimFold_filter {V : Type} {f : CacheEntry V → Nat}
    (l : List (String × CacheEntry V)) (acc : Option (Nat × String)) :
    l.foldl (victimStep f) acc =
      (l.filter (fun p => priBelowHigh p.2.priority)).foldl
        (victimStep f) acc := by
  induction l generalizing acc with
  | nil => simp
  | cons kv t ih =>
      by_cases h : priBelowHigh kv.2.priority = true
      · rw [List.foldl_cons, List.filter_cons, if_pos h, List.foldl_cons]
        exact ih _
      · rw [List.foldl_cons, List.filter_cons,
            victimStep_not_elig (by simpa using h), if_neg (by simpa using h)]
        exact ih acc

theorem find?_congr_mem {α : Type} {p q : α → Bool} {l : List α}
    (h : ∀ x ∈ l, p x = q x) : l.find? p = l.find? q := by
  induction l with
  | nil => simp
  | cons a t ih =>
      rw [List.find?_cons, List.find?_cons, h a (by simp)]
      split <;> first
        | rfl
        | exact ih (fun x hx => h x (List.mem_cons_of_mem _ hx))

theorem victimFold_find {V : Type} {f : CacheEntry V → Nat} :
    ∀ (l : List (String × CacheEntry V)),
      (∀ p ∈ l, priBelowHigh p.2.priority = true) →
      (l.foldl (victimStep f) none).map (fun pr => pr.2) =
        (l.find? (fun p =>
            l.all (fun q => decide (f p.2 ≤ f q.2)))).map (fun p => p.1) := by
  intro l
  induction l with
  | nil => intro _; simp
  | cons p t ih =>
      intro helig
      have hp : priBelowHigh p.2.priority = true := helig p (by simp)
      have helig' : ∀ q ∈ t, priBelowHigh q.2.priority = true :=
        fun q hq => helig q (List.mem_cons_of_mem _ hq)
      rw [List.foldl_cons]
      have hstep : victimStep f none p = some (f p.2, p.1) := by
        simp [victimStep, hp]
      rw [hstep]
      by_cases hmin : ∀ q ∈ t, f p.2 ≤ f q.2
      · have hkeep : t.foldl (victimStep f) (some (f p.2, p.1)) =
            some (f p.2, p.1) := by
          apply victimFold_keep
          intro q hq _
          exact Nat.not_lt.mpr (hmin q hq)
        rw [hkeep]
        have hpred : (List.all (p :: t) fun q => decide (f p.2 ≤ f q.2)) =
            true := by
          simp only [List.all_cons, Bool.and_eq_true, decide_eq_true_eq]
          refine ⟨Nat.le_refl _, ?_⟩
          simp only [List.all_eq_true, decide_eq_true_eq]
          exact hmin
        have hfind : List.find?
            (fun r => (p :: t).all fun q => decide (f r.2 ≤ f q.2)) (p :: t) =
            some p := List.find?_cons_of_pos _ hpred
        rw [hfind]
        rfl
      · push_neg at hmin
        obtain ⟨q, hq, hqlt⟩ := hmin
        have hbeat : t.foldl (victimStep f) (some (f p.2, p.1)) =
            t.foldl (victimStep f) none :=
          victimFold_beaten helig' _ _ ⟨q, hq, hqlt⟩
        rw [hbeat, ih helig']
        have hpred : ¬ ((p :: t).all fun r => decide (f p.2 ≤ f r.2)) =
            true := by
          simp only [List.all_eq_true, decide_eq_true_eq]
          intro hc
          exact absurd (hc q (List.mem_cons_of_mem _ hq))
            (Nat.not_le.mpr hqlt)
        have hfind : List.find?
            (fun r => (p :: t).all fun q => decide (f r.2 ≤ f q.2)) (p :: t) =
            List.find?
              (fun r => (p :: t).all fun q => decide (f r.2 ≤ f q.2)) t :=
          List.find?_cons_of_neg _ hpred
        rw [hfind]
        congr 1
        apply find?_congr_mem
        intro r hr
        simp only [List.all_cons, decide_eq_true_eq]
        by_cases hrt : t.all (fun s => decide (f r.2 ≤ f s.2)) = true
        · have hrq : f r.2 ≤ f q.2 := by
            simp only [List.all_eq_true, decide_eq_true_eq] at hrt
            exact hrt q hq
          have hrp : f r.2 ≤ f p.2 := Nat.le_of_lt (Nat.lt_of_le_of_lt hrq hqlt)
          simp [hrt, hrp]
        · simp only [Bool.not_eq_true] at hrt
          simp [hrt]

/-! ### Auxiliary list lemmas -/

theorem mem_mapSet {β : Type} {m : JsMap β} {k : String} {v : β}
    {kv : String × β} (h : kv ∈ mapSet m k v) : kv ∈ m ∨ kv = (k, v) := by
  simp only [mapSet] at h
  split at h
  · rcases List.mem_map.mp h with ⟨q, hq, hkv⟩
    by_cases hqk : q.1 = k
    · simp only [hqk, beq_self_eq_true, if_pos] at hkv
      right; exact hkv.symm
    · simp only [beq_iff_eq, hqk, if_false] at hkv
      left; rw [← hkv]; exact hq
  · rcases List.mem_append.mp h with hq | hq
    · left; exact hq
    · right; simpa using hq

theorem mem_mapAdjust {β : Type} {m : JsMap β} {k : String} {f : β → β}
    {kv : String × β} (h : kv ∈ mapAdjust m k f) :
    kv ∈ m ∨ ∃ q ∈ m, kv = (q.1, f q.2) := by
  rcases List.mem_map.mp h with ⟨q, hq, hkv⟩
  by_cases hqk : q.1 = k
  · simp only [hqk, beq_self_eq_true, if_pos] at hkv
    right; exact ⟨q, hq, by rw [← hkv, hqk]⟩
  · simp only [beq_iff_eq, hqk, if_false] at hkv
    left; rw [← hkv]; exact hq

theorem pushTrim_length_le {β : Type} {l : List β} {x : β} {b : Nat}
    (h : l.length ≤ b) : (pushTrim l x b).length ≤ b := by
  simp only [pushTrim]
  split
  · simp only [List.length_drop, List.length_append, List.length_cons,
      List.length_nil]
    omega
  · rename_i hc
    simp only [gt_iff_lt, not_lt, List.length_append, List.length_cons,
      List.length_nil] at hc
    simp only [List.length_append, List.length_cons, List.length_nil]
    omega

/-! ### Frame lemmas: which state fields each helper leaves unchanged -/

theorem enforceL3Go_l1 {V : Type} (cfg : CacheConfig) :
    ∀ (fuel : Nat) (s : CacheState V),
      (enforceL3Go cfg fuel s).l1Cache = s.l1Cache := by
  intro fuel
  induction fuel with
  | zero => intro s; rfl
  | succ n ih =>
      intro s
      simp only [enforceL3Go]
      split
      · split
        · rfl
        · exact ih _
      · rfl

theorem enforceL3Go_l2 {V : Type} (cfg : CacheConfig) :
    ∀ (fuel : Nat) (s : CacheState V),
      (enforceL3Go cfg fuel s).l2Cache = s.l2Cache := by
  intro fuel
  induction fuel with
  | zero => intro s; rfl
  | succ n ih =>
      intro s
      simp only [enforceL3Go]
      split
      · split
        · rfl
        · exact ih _
      · rfl

theorem enforceL3Go_at {V : Type} (cfg : CacheConfig) :
    ∀ (fuel : Nat) (s : CacheState V),
      (enforceL3Go cfg fuel s).accessTimes = s.accessTimes := by
  intro fuel
  induction fuel with
  | zero => intro s; rfl
  | succ n ih =>
      intro s
      simp only [enforceL3Go]
      split
      · split
        · rfl
        · exact ih _
      · rfl

theorem enforceL3Go_cr {V : Type} (cfg : CacheConfig) :
    ∀ (fuel : Nat) (s : CacheState V),
      (enforceL3Go cfg fuel s).compressionRatios = s.compressionRatios := by
  intro fuel
  induction fuel with
  | zero => intro s; rfl
  | succ n ih =>
      intro s
      simp only [enforceL3Go]
      split
      · split
        · rfl
        · exact ih _
      · rfl

theorem demoteToL3_l1 {V : Type} [Inhabited V] (cfg : CacheConfig)
    (env : SerEnv V) (e : CacheEntry V) (s : CacheState V) :
    (demoteToL3 cfg env e s).l1Cache = s.l1Cache := by
  simp only [demoteToL3, enforceL3Size]
  rw [enforceL3Go_l1]

theorem demoteToL3_l2 {V : Type} [Inhabited V] (cfg : CacheConfig)
    (env : SerEnv V) (e : CacheEntry V) (s : CacheState V) :
    (demoteToL3 cfg env e s).l2Cache = s.l2Cache := by
  simp only [demoteToL3, enforceL3Size]
  rw [enforceL3Go_l2]

theorem demoteToL3_at {V : Type} [Inhabited V] (cfg : CacheConfig)
    (env : SerEnv V) (e : CacheEntry V) (s : CacheState V) :
    (demoteToL3 cfg env e s).accessTimes = s.accessTimes := by
  simp only [demoteToL3, enforceL3Size]
  rw [enforceL3Go_at]

theorem demoteToL3_cr {V : Type} [Inhabited V] (cfg : CacheConfig)
    (env : SerEnv V) (e : CacheEntry V) (s : CacheState V) :
    (demoteToL3 cfg env e s).compressionRatios = s.compressionRatios := by
  simp only [demoteToL3, enforceL3Size]
  rw [enforceL3Go_cr]

theorem enforceL2Go_l1 {V : Type} [Inhabited V] (cfg : CacheConfig)
    (env : SerEnv V) :
    ∀ (fuel : Nat) (s : CacheState V),
      (enforceL2Go cfg env fuel s).l1Cache = s.l1Cache := by
  intro fuel
  induction fuel with
  | zero => intro s; rfl
  | succ n ih =>
      intro s
      simp only [enforceL2Go]
      split
      · split
        · rfl
        · split
          · rfl
          · rw [ih]
            split
            · rw [demoteToL3_l1]
            · rfl
      · rfl

theorem enforceL2Go_at {V : Type} [Inhabited V] (cfg : CacheConfig)
    (env : SerEnv V) :
    ∀ (fuel : Nat) (s : CacheState V),
      (enforceL2Go cfg env fuel s).accessTimes = s.accessTimes := by
  intro fuel
  induction fuel with
  | zero => intro s; rfl
  | succ n ih =>
      intro s
      simp only [enforceL2Go]
      split
      · split
        · rfl
        · split
          · rfl
          · rw [ih]
            split
            · rw [demoteToL3_at]
            · rfl
      · rfl

theorem enforceL2Go_cr {V : Type} [Inhabited V] (cfg : CacheConfig)
    (env : SerEnv V) :
    ∀ (fuel : Nat) (s : CacheState V),
      (enforceL2Go cfg env fuel s).compressionRatios =
        s.compressionRatios := by
  intro fuel
  induction fuel with
  | zero => intro s; rfl
  | succ n ih =>
      intro s
      simp only [enforceL2Go]
      split
      · split
        · rfl
        · split
          · rfl
          · rw [ih]
            split
            · rw [demoteToL3_cr]
            · rfl
      · rfl

theorem demoteToL2_l1 {V : Type} [Inhabited V] (cfg : CacheConfig)
    (env : SerEnv V) (e : CacheEntry V) (s : CacheState V) :
    (demoteToL2 cfg env e s).l1Cache = s.l1Cache := by
  simp only [demoteToL2, enforceL2Size]
  rw [enforceL2Go_l1]
  split
  · split <;> rfl
  · rfl

theorem demoteToL2_at {V : Type} [Inhabited V] (cfg : CacheConfig)
    (env : SerEnv V) (e : CacheEntry V) (s : CacheState V) :
    (demoteToL2 cfg env e s).accessTimes = s.accessTimes := by
  simp only [demoteToL2, enforceL2Size]
  rw [enforceL2Go_at]
  split
  · split <;> rfl
  · rfl

theorem demoteToL2_cr_le {V : Type} [Inhabited V] (cfg : CacheConfig)
    (env : SerEnv V) (e : CacheEntry V) (s : CacheState V)
    (h : s.compressionRatios.length ≤ 100) :
    (demoteToL2 cfg env e s).compressionRatios.length ≤ 100 := by
  simp only [demoteToL2, enforceL2Size]
  rw [enforceL2Go_cr]
  split
  · split
    · exact pushTrim_length_le h
    · exact h
  · exact h

/-! ### Capacity enforcement lemmas -/

theorem enforceL3Go_cap {V : Type} (cfg : CacheConfig) :
    ∀ (fuel : Nat) (s : CacheState V), s.l3Index.length ≤ fuel →
      (enforceL3Go cfg fuel s).l3Index.length ≤ cfg.maxL3Size := by
  intro fuel
  induction fuel with
  | zero =>
      intro s h
      simp only [enforceL3Go]
      omega
  | succ n ih =>
      intro s h
      simp only [enforceL3Go]
      split
      · rename_i hgt
        split
        · rename_i heq
          simp only [heq] at hgt
          simp only [List.length_nil] at hgt
          omega
        · rename_i oldestKey filePath rest heq
          apply ih
          have hmem : oldestKey ∈ mapKeys s.l3Index := by
            rw [heq]
            simp [mapKeys]
          have := length_mapDelete_lt (m := s.l3Index) hmem
          dsimp only
          omega
      · rename_i hgt
        omega

theorem enforceL3Size_cap {V : Type} (cfg : CacheConfig) (s : CacheState V) :
    (enforceL3Size cfg s).l3Index.length ≤ cfg.maxL3Size :=
  enforceL3Go_cap cfg _ s (Nat.le_refl _)

theorem demoteToL3_l3cap {V : Type} [Inhabited V] (cfg : CacheConfig)
    (env : SerEnv V) (e : CacheEntry V) (s : CacheState V) :
    l3CapOk cfg (demoteToL3 cfg env e s) := by
  simp only [demoteToL3, l3CapOk]
  exact enforceL3Size_cap cfg _

theorem enforceL2Go_l3cap {V : Type} [Inhabited V] (cfg : CacheConfig)
    (env : SerEnv V) :
    ∀ (fuel : Nat) (s : CacheState V), l3CapOk cfg s →
      l3CapOk cfg (enforceL2Go cfg env fuel s) := by
  intro fuel
  induction fuel with
  | zero => intro s h; exact h
  | succ n ih =>
      intro s h
      simp only [enforceL2Go]
      split
      · split
        · exact h
        · split
          · exact h
          · apply ih
            split
            · exact demoteToL3_l3cap cfg env _ _
            · exact h
      · exact h

theorem demoteToL2_l3cap {V : Type} [Inhabited V] (cfg : CacheConfig)
    (env : SerEnv V) (e : CacheEntry V) (s : CacheState V)
    (h : l3CapOk cfg s) : l3CapOk cfg (demoteToL2 cfg env e s) := by
  simp only [demoteToL2, enforceL2Size]
  apply enforceL2Go_l3cap
  split
  · split
    · exact h
    · exact h
  · exact h

theorem enforceL1Go_l3cap {V : Type} [Inhabited V] (cfg : CacheConfig)
    (env : SerEnv V) :
    ∀ (fuel : Nat) (s : CacheState V), l3CapOk cfg s →
      l3CapOk cfg (enforceL1Go cfg env fuel s) := by
  intro fuel
  induction fuel with
  | zero => intro s h; exact h
  | succ n ih =>
      intro s h
      simp only [enforceL1Go]
      split
      · split
        · exact h
        · split
          · exact h
          · exact ih _ (demoteToL2_l3cap cfg env _ _ h)
      · exact h

theorem enforceL2Go_cap {V : Type} [Inhabited V] (cfg : CacheConfig)
    (env : SerEnv V) :
    ∀ (fuel : Nat) (s : CacheState V), s.l2Cache.length ≤ fuel →
      l2CapOk cfg (enforceL2Go cfg env fuel s) := by
  intro fuel
  induction fuel with
  | zero =>
      intro s h
      left
      simp only [enforceL2Go]
      omega
  | succ n ih =>
      intro s h
      simp only [enforceL2Go]
      split
      · rename_i hgt
        split
        · rename_i hnone
          right
          intro kv hkv
          exact (selectVictim_none_iff.mp hnone) kv hkv
        · rename_i victimKey hvic
          split
          · rename_i hget
            exfalso
            obtain ⟨w, hw⟩ :=
              mem_exists_mapGet (selectVictim_some_mem hvic)
            rw [hget] at hw
            exact Option.noConfusion hw
          · rename_i victim hget
            apply ih
            have hmem : victimKey ∈ mapKeys s.l2Cache :=
              selectVictim_some_mem hvic
            have hlt := length_mapDelete_lt (m := s.l2Cache) hmem
            have hl2 :
                ((if cfg.enableDiskCache = true
                    then demoteToL3 cfg env victim
                      { s with l2Cache := mapDelete s.l2Cache victimKey }
                    else { s with
                      l2Cache := mapDelete s.l2Cache victimKey }).l2Cache) =
                  mapDelete s.l2Cache victimKey := by
              split
              · rw [demoteToL3_l2]
              · rfl
            simp only [hl2]
            omega
      · rename_i hgt
        left
        omega

theorem enforceL2Size_l2cap {V : Type} [Inhabited V] (cfg : CacheConfig)
    (env : SerEnv V) (s : CacheState V) :
    l2CapOk cfg (enforceL2Size cfg env s) :=
  enforceL2Go_cap cfg env _ s (Nat.le_refl _)

theorem demoteToL2_l2cap {V : Type} [Inhabited V] (cfg : CacheConfig)
    (env : SerEnv V) (e : CacheEntry V) (s : CacheState V) :
    l2CapOk cfg (demoteToL2 cfg env e s) := by
  simp only [demoteToL2]
  exact enforceL2Size_l2cap cfg env _

theorem enforceL1Go_cap {V : Type} [Inhabited V] (cfg : CacheConfig)
    (env : SerEnv V) :
    ∀ (fuel : Nat) (s : CacheState V), s.l1Cache.length ≤ fuel →
      l1CapOk cfg (enforceL1Go cfg env fuel s) := by
  intro fuel
  induction fuel with
  | zero =>
      intro s h
      left
      simp only [enforceL1Go]
      omega
  | succ n ih =>
      intro s h
      simp only [enforceL1Go]
      split
      · rename_i hgt
        split
        · rename_i hnone
          right
          intro kv hkv
          exact (selectVictim_none_iff.mp hnone) kv hkv
        · rename_i victimKey hvic
          split
          · rename_i hget
            exfalso
            obtain ⟨w, hw⟩ :=
              mem_exists_mapGet (selectVictim_some_mem hvic)
            rw [hget] at hw
            exact Option.noConfusion hw
          · rename_i victim hget
            apply ih
            have hmem : victimKey ∈ mapKeys s.l1Cache :=
              selectVictim_some_mem hvic
            have hlt := length_mapDelete_lt (m := s.l1Cache) hmem
            have hl1 :
                (demoteToL2 cfg env victim
                    { s with
                      l1Cache := mapDelete s.l1Cache victimKey }).l1Cache =
                  mapDelete s.l1Cache victimKey := by
              rw [demoteToL2_l1]
            simp only [hl1]
            omega
      · rename_i hgt
        left
        omega

theorem enforceL1Size_l1cap {V : Type} [Inhabited V] (cfg : CacheConfig)
    (env : SerEnv V) (s : CacheState V) :
    l1CapOk cfg (enforceL1Size cfg env s) :=
  enforceL1Go_cap cfg env _ s (Nat.le_refl _)

theorem enforceL1Go_l2cap {V : Type} [Inhabited V] (cfg : CacheConfig)
    (env : SerEnv V) :
    ∀ (fuel : Nat) (s : CacheState V), l2CapOk cfg s →
      l2CapOk cfg (enforceL1Go cfg env fuel s) := by
  intro fuel
  induction fuel with
  | zero => intro s h; exact h
  | succ n ih =>
      intro s h
      simp only [enforceL1Go]
      split
      · split
        · exact h
        · split
          · exact h
          · exact ih _ (demoteToL2_l2cap cfg env _ _)
      · exact h

theorem setOp_l1cap {V : Type} [Inhabited V] (cfg : CacheConfig)
    (env : SerEnv V) (now : Nat) (k : String) (v : V) (p : CachePriority)
    (ttlArg : Option Nat) (s : CacheState V) :
    l1CapOk cfg (setOp cfg env now k v p ttlArg s) := by
  simp only [setOp]
  split
  · have := enforceL1Size_l1cap cfg env
      { s with l1Cache :=
          mapSet s.l1Cache k (polOnAdd (activePolicy cfg) now
            (createEntry cfg env now k v p ttlArg)) }
    simpa [l1CapOk] using this
  · exact enforceL1Size_l1cap cfg env _

theorem enforceL1Size_l2cap {V : Type} [Inhabited V] (cfg : CacheConfig)
    (env : SerEnv V) (s : CacheState V) (h : l2CapOk cfg s) :
    l2CapOk cfg (enforceL1Size cfg env s) := by
  simp only [enforceL1Size]
  exact enforceL1Go_l2cap cfg env _ s h

theorem enforceL1Size_l3cap {V : Type} [Inhabited V] (cfg : CacheConfig)
    (env : SerEnv V) (s : CacheState V) (h : l3CapOk cfg s) :
    l3CapOk cfg (enforceL1Size cfg env s) := by
  simp only [enforceL1Size]
  exact enforceL1Go_l3cap cfg env _ s h

theorem setOp_l2cap {V : Type} [Inhabited V] (cfg : CacheConfig)
    (env : SerEnv V) (now : Nat) (k : String) (v : V) (p : CachePriority)
    (ttlArg : Option Nat) (s : CacheState V) (h : l2CapOk cfg s) :
    l2CapOk cfg (setOp cfg env now k v p ttlArg s) := by
  simp only [setOp]
  have hbase : l2CapOk cfg
      (enforceL1Size cfg env
        { s with l1Cache :=
            mapSet s.l1Cache k (polOnAdd (activePolicy cfg) now
              (createEntry cfg env now k v p ttlArg)) }) :=
    enforceL1Size_l2cap cfg env _ h
  split
  · simpa [l2CapOk] using hbase
  · exact hbase

theorem setOp_l3cap {V : Type} [Inhabited V] (cfg : CacheConfig)
    (env : SerEnv V) (now : Nat) (k : String) (v : V) (p : CachePriority)
    (ttlArg : Option Nat) (s : CacheState V) (h : l3CapOk cfg s) :
    l3CapOk cfg (setOp cfg env now k v p ttlArg s) := by
  simp only [setOp]
  have hbase : l3CapOk cfg
      (enforceL1Size cfg env
        { s with l1Cache :=
            mapSet s.l1Cache k (polOnAdd (activePolicy cfg) now
              (createEntry cfg env now k v p ttlArg)) }) :=
    enforceL1Size_l3cap cfg env _ h
  split
  · simpa [l3CapOk] using hbase
  · exact hbase

/-! ### Preservation of single-tier residency (C1 machinery) -/

theorem mapGet_eq_some_pair_mem {β : Type} {m : JsMap β} {k : String}
    {v : β} (h : mapGet m k = some v) : (k, v) ∈ m := by
  simp only [mapGet, Option.map_eq_some'] at h
  obtain ⟨p, hp, hv⟩ := h
  have hmem := List.mem_of_find?_eq_some hp
  have hk := List.find?_some hp
  simp only [beq_iff_eq] at hk
  have : p = (k, v) := by
    cases p
    simp only at hk hv
    simp [hk, hv]
  rw [← this]
  exact hmem

theorem enforceL3Go_wfUniq {V : Type} (cfg : CacheConfig) :
    ∀ (fuel : Nat) (s : CacheState V), wfUniq s →
      wfUniq (enforceL3Go cfg fuel s) := by
  intro fuel
  induction fuel with
  | zero => intro s h; exact h
  | succ n ih =>
      intro s h
      obtain ⟨hwf, hu⟩ := h
      simp only [enforceL3Go]
      split
      · split
        · exact ⟨hwf, hu⟩
        · rename_i oldestKey filePath rest heq
          apply ih
          refine ⟨⟨hwf.1, hwf.2⟩, ?_, ?_, ?_⟩
          · intro k h1
            exact hu.1 k h1
          · intro k h1 h3
            dsimp only at h3
            exact hu.2.1 k h1 (mapKeys_mapDelete.mp h3).1
          · intro k h2 h3
            dsimp only at h3
            exact hu.2.2 k h2 (mapKeys_mapDelete.mp h3).1
      · exact ⟨hwf, hu⟩

theorem demoteToL3_wfUniq {V : Type} [Inhabited V] (cfg : CacheConfig)
    (env : SerEnv V) (e : CacheEntry V) (s : CacheState V)
    (h : wfUniq s) (he1 : e.key ∉ mapKeys s.l1Cache)
    (he2 : e.key ∉ mapKeys s.l2Cache) :
    wfUniq (demoteToL3 cfg env e s) := by
  obtain ⟨hwf, hu⟩ := h
  simp only [demoteToL3, enforceL3Size]
  apply enforceL3Go_wfUniq
  refine ⟨⟨hwf.1, hwf.2⟩, ?_, ?_, ?_⟩
  · intro k h1
    exact hu.1 k h1
  · intro k h1 h3
    dsimp only at h1 h3
    rcases mapKeys_mapSet.mp h3 with h3 | rfl
    · exact hu.2.1 k h1 h3
    · exact he1 h1
  · intro k h2 h3
    dsimp only at h2 h3
    rcases mapKeys_mapSet.mp h3 with h3 | rfl
    · exact hu.2.2 k h2 h3
    · exact he2 h2

theorem enforceL2Go_wfUniq {V : Type} [Inhabited V] (cfg : CacheConfig)
    (env : SerEnv V) :
    ∀ (fuel : Nat) (s : CacheState V), wfUniq s →
      wfUniq (enforceL2Go cfg env fuel s) := by
  intro fuel
  induction fuel with
  | zero => intro s h; exact h
  | succ n ih =>
      intro s h
      obtain ⟨hwf, hu⟩ := h
      simp only [enforceL2Go]
      split
      · split
        · exact ⟨hwf, hu⟩
        · rename_i victimKey hvic
          split
          · exact ⟨hwf, hu⟩
          · rename_i victim hget
            apply ih
            have hvkey : victim.key = victimKey :=
              (hwf.2 (victimKey, victim) (mapGet_eq_some_pair_mem hget)).1
            have hvl2 : victimKey ∈ mapKeys s.l2Cache :=
              selectVictim_some_mem hvic
            have hdel : wfUniq
                { s with l2Cache := mapDelete s.l2Cache victimKey } := by
              refine ⟨⟨hwf.1, ?_⟩, ?_, ?_, ?_⟩
              · intro kv hkv
                exact hwf.2 kv (List.mem_of_mem_filter hkv)
              · intro k h1 h2
                dsimp only at h2
                exact hu.1 k h1 (mapKeys_mapDelete.mp h2).1
              · intro k h1 h3
                exact hu.2.1 k h1 h3
              · intro k h2 h3
                dsimp only at h2
                exact hu.2.2 k (mapKeys_mapDelete.mp h2).1 h3
            split
            · apply demoteToL3_wfUniq cfg env victim _ hdel
              · rw [hvkey]
                dsimp only
                intro h1
                exact hu.1 victimKey h1 hvl2
              · rw [hvkey]
                dsimp only
                intro h2
                exact (mapKeys_mapDelete.mp h2).2 rfl
            · exact hdel
      · exact ⟨hwf, hu⟩

theorem demoteToL2_wfUniq {V : Type} [Inhabited V] (cfg : CacheConfig)
    (env : SerEnv V) (e : CacheEntry V) (s : CacheState V)
    (h : wfUniq s) (he1 : e.key ∉ mapKeys s.l1Cache)
    (he3 : e.key ∉ mapKeys s.l3Index) :
    wfUniq (demoteToL2 cfg env e s) := by
  obtain ⟨hwf, hu⟩ := h
  simp only [demoteToL2, enforceL2Size]
  apply enforceL2Go_wfUniq
  have hins : ∀ (e' : CacheEntry V) (s' : CacheState V),
      e'.key = e.key → e'.level = Level.l2 →
      s'.l1Cache = s.l1Cache → s'.l2Cache = s.l2Cache →
      s'.l3Index = s.l3Index →
      wfUniq { s' with l2Cache := mapSet s'.l2Cache e.key e' } := by
    intro e' s' hk hl h1 h2 h3
    refine ⟨⟨?_, ?_⟩, ?_, ?_, ?_⟩
    · intro kv hkv
      dsimp only at hkv
      rw [h1] at hkv
      exact hwf.1 kv hkv
    · intro kv hkv
      dsimp only at hkv
      rw [h2] at hkv
      rcases mem_mapSet hkv with hkv | rfl
      · exact hwf.2 kv hkv
      · exact ⟨hk, hl⟩
    · intro k hk1 hk2
      dsimp only at hk1 hk2
      rw [h1] at hk1
      rw [h2] at hk2
      rcases mapKeys_mapSet.mp hk2 with hk2 | rfl
      · exact hu.1 k hk1 hk2
      · exact he1 hk1
    · intro k hk1 hk3
      dsimp only at hk1 hk3
      rw [h1] at hk1
      rw [h3] at hk3
      exact hu.2.1 k hk1 hk3
    · intro k hk2 hk3
      dsimp only at hk2 hk3
      rw [h2] at hk2
      rw [h3] at hk3
      rcases mapKeys_mapSet.mp hk2 with hk2 | rfl
      · exact hu.2.2 k hk2 hk3
      · exact he3 hk3
  split
  · split
    · exact hins _ _ rfl rfl rfl rfl rfl
    · exact hins _ _ rfl rfl rfl rfl rfl
  · exact hins _ _ rfl rfl rfl rfl rfl

theorem enforceL1Go_wfUniq {V : Type} [Inhabited V] (cfg : CacheConfig)
    (env : SerEnv V) :
    ∀ (fuel : Nat) (s : CacheState V), wfUniq s →
      wfUniq (enforceL1Go cfg env fuel s) := by
  intro fuel
  induction fuel with
  | zero => intro s h; exact h
  | succ n ih =>
      intro s h
      obtain ⟨hwf, hu⟩ := h
      simp only [enforceL1Go]
      split
      · split
        · exact ⟨hwf, hu⟩
        · rename_i victimKey hvic
          split
          · exact ⟨hwf, hu⟩
          · rename_i victim hget
            apply ih
            have hvkey : victim.key = victimKey :=
              hwf.1 (victimKey, victim) (mapGet_eq_some_pair_mem hget)
            have hvl1 : victimKey ∈ mapKeys s.l1Cache :=
              selectVictim_some_mem hvic
            have hdel : wfUniq
                { s with l1Cache := mapDelete s.l1Cache victimKey } := by
              refine ⟨⟨?_, hwf.2⟩, ?_, ?_, ?_⟩
              · intro kv hkv
                exact hwf.1 kv (List.mem_of_mem_filter hkv)
              · intro k h1 h2
                dsimp only at h1
                exact hu.1 k (mapKeys_mapDelete.mp h1).1 h2
              · intro k h1 h3
                dsimp only at h1
                exact hu.2.1 k (mapKeys_mapDelete.mp h1).1 h3
              · intro k h2 h3
                exact hu.2.2 k h2 h3
            apply demoteToL2_wfUniq cfg env victim _ hdel
            · rw [hvkey]
              dsimp only
              intro h1
              exact (mapKeys_mapDelete.mp h1).2 rfl
            · rw [hvkey]
              dsimp only
              intro h3
              exact hu.2.1 victimKey hvl1 h3
      · exact ⟨hwf, hu⟩

theorem promoteToL1_wfUniq {V : Type} [Inhabited V] (cfg : CacheConfig)
    (env : SerEnv V) (now : Nat) (e : CacheEntry V) (s : CacheState V)
    (h : wfUniq s) (hlvl : e.level = Level.l2)
    (hkey : e.key ∈ mapKeys s.l2Cache) :
    wfUniq (promoteToL1 cfg env now e s) := by
  obtain ⟨hwf, hu⟩ := h
  simp only [promoteToL1, enforceL1Size, hlvl]
  apply enforceL1Go_wfUniq
  have hpk : (polOnAdd (activePolicy cfg) now
      { e with level := Level.l1 }).key = e.key := by
    cases activePolicy cfg <;> rfl
  simp only [hpk]
  refine ⟨⟨?_, ?_⟩, ?_, ?_, ?_⟩
  · intro kv hkv
    dsimp only at hkv
    rcases mem_mapSet hkv with hkv | heq
    · exact hwf.1 kv hkv
    · rw [heq]
      exact hpk
  · intro kv hkv
    dsimp only at hkv
    exact hwf.2 kv (List.mem_of_mem_filter hkv)
  · intro k h1 h2
    dsimp only at h1 h2
    rcases mapKeys_mapSet.mp h1 with h1 | rfl
    · exact hu.1 k h1 (mapKeys_mapDelete.mp h2).1
    · exact (mapKeys_mapDelete.mp h2).2 rfl
  · intro k h1 h3
    dsimp only at h1 h3
    rcases mapKeys_mapSet.mp h1 with h1 | rfl
    · exact hu.2.1 k h1 h3
    · exact hu.2.2 e.key hkey h3
  · intro k h2 h3
    dsimp only at h2 h3
    exact hu.2.2 k (mapKeys_mapDelete.mp h2).1 h3

theorem recordHitFor_wfUniq {V : Type} (cfg : CacheConfig) (now : Nat)
    (lvl : Level) (k : String) (s : CacheState V) (h : wfUniq s) :
    wfUniq (recordHitFor cfg now lvl k s) := by
  obtain ⟨hwf, hu⟩ := h
  simp only [recordHitFor]
  have htouch : ∀ (e : CacheEntry V),
      (polOnAccess (activePolicy cfg) now
        { e with hits := e.hits + 1, accessed := now }).key = e.key ∧
      (polOnAccess (activePolicy cfg) now
        { e with hits := e.hits + 1, accessed := now }).level = e.level := by
    intro e
    cases activePolicy cfg <;> exact ⟨rfl, rfl⟩
  split
  · refine ⟨⟨?_, hwf.2⟩, ?_, ?_, ?_⟩
    · intro kv hkv
      dsimp only at hkv
      rcases mem_mapAdjust hkv with hkv | ⟨q, hq, rfl⟩
      · exact hwf.1 kv hkv
      · dsimp only
        rw [(htouch q.2).1]
        exact hwf.1 q hq
    · intro kk h1 h2
      dsimp only at h1
      rw [mapKeys_mapAdjust] at h1
      exact hu.1 kk h1 h2
    · intro kk h1 h3
      dsimp only at h1
      rw [mapKeys_mapAdjust] at h1
      exact hu.2.1 kk h1 h3
    · intro kk h2 h3
      exact hu.2.2 kk h2 h3
  · split
    · refine ⟨⟨hwf.1, ?_⟩, ?_, ?_, ?_⟩
      · intro kv hkv
        dsimp only at hkv
        rcases mem_mapAdjust hkv with hkv | ⟨q, hq, rfl⟩
        · exact hwf.2 kv hkv
        · dsimp only
          rw [(htouch q.2).1, (htouch q.2).2]
          exact hwf.2 q hq
      · intro kk h1 h2
        dsimp only at h2
        rw [mapKeys_mapAdjust] at h2
        exact hu.1 kk h1 h2
      · intro kk h1 h3
        exact hu.2.1 kk h1 h3
      · intro kk h2 h3
        dsimp only at h2
        rw [mapKeys_mapAdjust] at h2
        exact hu.2.2 kk h2 h3
    · exact ⟨hwf, hu⟩

theorem wfUniq_congr {V : Type} {s' s : CacheState V}
    (h1 : s'.l1Cache = s.l1Cache) (h2 : s'.l2Cache = s.l2Cache)
    (h3 : s'.l3Index = s.l3Index) (h : wfUniq s) : wfUniq s' := by
  obtain ⟨hwf, hu⟩ := h
  refine ⟨⟨?_, ?_⟩, ?_, ?_, ?_⟩
  · intro kv hkv
    rw [h1] at hkv
    exact hwf.1 kv hkv
  · intro kv hkv
    rw [h2] at hkv
    exact hwf.2 kv hkv
  · intro k hk1 hk2
    rw [h1] at hk1
    rw [h2] at hk2
    exact hu.1 k hk1 hk2
  · intro k hk1 hk3
    rw [h1] at hk1
    rw [h3] at hk3
    exact hu.2.1 k hk1 hk3
  · intro k hk2 hk3
    rw [h2] at hk2
    rw [h3] at hk3
    exact hu.2.2 k hk2 hk3

theorem mapKeys_filter_sub {β : Type} {m : JsMap β} {p : String × β → Bool}
    {k : String} (h : k ∈ mapKeys (m.filter p)) : k ∈ mapKeys m := by
  rcases List.mem_map.mp h with ⟨q, hq, hk⟩
  exact List.mem_map.mpr ⟨q, List.mem_of_mem_filter hq, hk⟩

theorem wfUniq_deleteL3 {V : Type} {s : CacheState V} {k : String}
    (h : wfUniq s) :
    wfUniq { s with l3Index := mapDelete s.l3Index k } := by
  obtain ⟨hwf, hu⟩ := h
  refine ⟨⟨hwf.1, hwf.2⟩, hu.1, ?_, ?_⟩
  · intro a h1 h3
    dsimp only at h3
    exact hu.2.1 a h1 (mapKeys_mapDelete.mp h3).1
  · intro a h2 h3
    dsimp only at h3
    exact hu.2.2 a h2 (mapKeys_mapDelete.mp h3).1

theorem loadFromDisk_l123 {V : Type} (now : Nat) (filePath : String)
    (s : CacheState V) :
    (loadFromDisk now filePath s).2.l1Cache = s.l1Cache ∧
    (loadFromDisk now filePath s).2.l2Cache = s.l2Cache ∧
    (loadFromDisk now filePath s).2.l3Index = s.l3Index := by
  simp only [loadFromDisk]
  split
  · exact ⟨rfl, rfl, rfl⟩
  · exact ⟨rfl, rfl, rfl⟩
  · split
    · exact ⟨rfl, rfl, rfl⟩
    · split <;> exact ⟨rfl, rfl, rfl⟩

theorem recordMissFor_wfUniq {V : Type} (cfg : CacheConfig)
    (s : CacheState V) (h : wfUniq s) : wfUniq (recordMissFor cfg s) := by
  exact wfUniq_congr rfl rfl rfl h

theorem sweepL3_wfUniq {V : Type} (now : Nat) :
    ∀ (lst : List (String × String)) (s : CacheState V), wfUniq s →
      wfUniq (sweepL3 now lst s) := by
  intro lst
  induction lst with
  | nil => intro s h; exact h
  | cons p rest ih =>
      intro s h
      simp only [sweepL3]
      apply ih
      have hfr := loadFromDisk_l123 (V := V) now p.2 s
      have hload : wfUniq (loadFromDisk now p.2 s).2 :=
        wfUniq_congr hfr.1 hfr.2.1 hfr.2.2 h
      split
      · exact wfUniq_deleteL3 hload
      · exact hload

theorem cleanExpiredEntries_wfUniq {V : Type} (now : Nat)
    (s : CacheState V) (h : wfUniq s) :
    wfUniq (cleanExpiredEntries now s) := by
  obtain ⟨hwf, hu⟩ := h
  simp only [cleanExpiredEntries]
  apply sweepL3_wfUniq
  refine ⟨⟨?_, ?_⟩, ?_, ?_, ?_⟩
  · intro kv hkv
    dsimp only at hkv
    exact hwf.1 kv (List.mem_of_mem_filter hkv)
  · intro kv hkv
    dsimp only at hkv
    exact hwf.2 kv (List.mem_of_mem_filter hkv)
  · intro k h1 h2
    dsimp only at h1 h2
    exact hu.1 k (mapKeys_filter_sub h1) (mapKeys_filter_sub h2)
  · intro k h1 h3
    dsimp only at h1 h3
    exact hu.2.1 k (mapKeys_filter_sub h1) h3
  · intro k h2 h3
    dsimp only at h2 h3
    exact hu.2.2 k (mapKeys_filter_sub h2) h3

theorem enforceL1Size_wfUniq {V : Type} [Inhabited V] (cfg : CacheConfig)
    (env : SerEnv V) (s : CacheState V) (h : wfUniq s) :
    wfUniq (enforceL1Size cfg env s) := by
  simp only [enforceL1Size]
  exact enforceL1Go_wfUniq cfg env _ s h

theorem setOp_wfUniq {V : Type} [Inhabited V] (cfg : CacheConfig)
    (env : SerEnv V) (now : Nat) (k : String) (v : V) (p : CachePriority)
    (ttlArg : Option Nat) (s : CacheState V) (h : wfUniq s)
    (h2 : k ∉ mapKeys s.l2Cache) (h3 : k ∉ mapKeys s.l3Index) :
    wfUniq (setOp cfg env now k v p ttlArg s) := by
  obtain ⟨hwf, hu⟩ := h
  have hins : wfUniq
      { s with l1Cache := mapSet s.l1Cache k
                            (polOnAdd (activePolicy cfg) now
                              (createEntry cfg env now k v p ttlArg)) } := by
    refine ⟨⟨?_, hwf.2⟩, ?_, ?_, ?_⟩
    · intro kv hkv
      dsimp only at hkv
      rcases mem_mapSet hkv with hkv | rfl
      · exact hwf.1 kv hkv
      · cases hcp : activePolicy cfg <;> simp [polOnAdd, hcp, createEntry]
    · intro a h1 hb
      dsimp only at h1
      rcases mapKeys_mapSet.mp h1 with h1 | rfl
      · exact hu.1 a h1 hb
      · exact h2 hb
    · intro a h1 hb
      dsimp only at h1
      rcases mapKeys_mapSet.mp h1 with h1 | rfl
      · exact hu.2.1 a h1 hb
      · exact h3 hb
    · intro a ha hb
      exact hu.2.2 a ha hb
  have henf := enforceL1Size_wfUniq cfg env _ hins
  simp only [setOp]
  split
  · exact wfUniq_congr rfl rfl rfl henf
  · exact henf

theorem deleteOp_wfUniq {V : Type} (k : String) (s : CacheState V)
    (h : wfUniq s) : wfUniq (deleteOp k s).2 := by
  obtain ⟨hwf, hu⟩ := h
  have hdel : wfUniq
      { s with l1Cache := mapDelete s.l1Cache k,
               l2Cache := mapDelete s.l2Cache k } := by
    refine ⟨⟨?_, ?_⟩, ?_, ?_, ?_⟩
    · intro kv hkv
      dsimp only at hkv
      exact hwf.1 kv (List.mem_of_mem_filter hkv)
    · intro kv hkv
      dsimp only at hkv
      exact hwf.2 kv (List.mem_of_mem_filter hkv)
    · intro a h1 h2
      dsimp only at h1 h2
      exact hu.1 a (mapKeys_mapDelete.mp h1).1 (mapKeys_mapDelete.mp h2).1
    · intro a h1 h3
      dsimp only at h1
      exact hu.2.1 a (mapKeys_mapDelete.mp h1).1 h3
    · intro a h2 h3
      dsimp only at h2
      exact hu.2.2 a (mapKeys_mapDelete.mp h2).1 h3
  simp only [deleteOp]
  split
  · split
    · exact wfUniq_deleteL3 hdel
    · exact hdel
  · exact hdel

theorem clearOp_wfUniq {V : Type} (cfg : CacheConfig) (s : CacheState V) :
    wfUniq (clearOp cfg s) := by
  simp only [clearOp]
  split
  · exact ⟨⟨by simp, by simp⟩, by simp [mapKeys], by simp [mapKeys],
      by simp [mapKeys]⟩
  · refine ⟨⟨by simp, by simp⟩, by simp [mapKeys], by simp [mapKeys], ?_⟩
    intro a h2 h3
    simp [mapKeys] at h2

theorem getL3Branch_wfUniq {V : Type} [Inhabited V] (cfg : CacheConfig)
    (env : SerEnv V) (now : Nat) (k : String) (s : CacheState V)
    (h : wfUniq s)
    (hdisk : cfg.enableDiskCache = false ∨ mapGet s.l3Index k = none) :
    wfUniq (getL3Branch cfg env now k s).2 := by
  simp only [getL3Branch]
  split
  · rename_i hdc
    rcases hdisk with hdisk | hdisk
    · rw [hdc] at hdisk
      exact Bool.noConfusion hdisk
    · rw [hdisk]
      exact recordMissFor_wfUniq cfg s h
  · exact recordMissFor_wfUniq cfg s h

theorem getL2Branch_wfUniq {V : Type} [Inhabited V] (cfg : CacheConfig)
    (env : SerEnv V) (now : Nat) (k : String) (s : CacheState V)
    (h : wfUniq s)
    (hdisk : cfg.enableDiskCache = false ∨ mapGet s.l3Index k = none) :
    wfUniq (getL2Branch cfg env now k s).2 := by
  simp only [getL2Branch]
  split
  · rename_i e hg2
    have hpair := mapGet_eq_some_pair_mem hg2
    have hwfe := h.1.2 (k, e) hpair
    have hkmem : k ∈ mapKeys s.l2Cache :=
      List.mem_map.mpr ⟨(k, e), hpair, rfl⟩
    split
    · exact getL3Branch_wfUniq cfg env now k s h hdisk
    · dsimp only
      split
      · rename_i c hc
        dsimp only
        apply recordHitFor_wfUniq
        refine promoteToL1_wfUniq cfg env now _ _ ?_ ?_ ?_
        · exact wfUniq_congr rfl rfl rfl h
        · exact hwfe.2
        · dsimp only
          rw [hwfe.1]
          exact hkmem
      · apply recordHitFor_wfUniq
        apply promoteToL1_wfUniq cfg env now _ _ h
        · exact hwfe.2
        · rw [hwfe.1]
          exact hkmem
  · exact getL3Branch_wfUniq cfg env now k s h hdisk

theorem getOp_wfUniq {V : Type} [Inhabited V] (cfg : CacheConfig)
    (env : SerEnv V) (now : Nat) (k : String) (s : CacheState V)
    (h : wfUniq s)
    (hdisk : cfg.enableDiskCache = false ∨ mapGet s.l3Index k = none) :
    wfUniq (getOp cfg env now k s).2 := by
  simp only [getOp]
  split
  · split
    · exact getL2Branch_wfUniq cfg env now k s h hdisk
    · exact recordHitFor_wfUniq cfg now .l1 k s h
  · exact getL2Branch_wfUniq cfg env now k s h hdisk

theorem runMaintenance_wfUniq {V : Type} (cfg : CacheConfig) (now : Nat)
    (s : CacheState V) (h : wfUniq s) :
    wfUniq (runMaintenance cfg now s) := by
  simp only [runMaintenance]
  split
  · exact wfUniq_congr rfl rfl rfl (cleanExpiredEntries_wfUniq now s h)
  · exact cleanExpiredEntries_wfUniq now s h

/-! ### Miss-path and maintenance lemmas (C2 machinery) -/

theorem loadFromDisk_at_cr {V : Type} (now : Nat) (filePath : String)
    (s : CacheState V) :
    (loadFromDisk now filePath s).2.accessTimes = s.accessTimes ∧
    (loadFromDisk now filePath s).2.compressionRatios =
      s.compressionRatios := by
  simp only [loadFromDisk]
  split
  · exact ⟨rfl, rfl⟩
  · exact ⟨rfl, rfl⟩
  · split
    · exact ⟨rfl, rfl⟩
    · split <;> exact ⟨rfl, rfl⟩

theorem sweepL3_l1 {V : Type} (now : Nat) :
    ∀ (lst : List (String × String)) (s : CacheState V),
      (sweepL3 now lst s).l1Cache = s.l1Cache := by
  intro lst
  induction lst with
  | nil => intro s; rfl
  | cons p rest ih =>
      intro s
      simp only [sweepL3]
      rw [ih]
      have hfr := loadFromDisk_l123 (V := V) now p.2 s
      split
      · exact hfr.1
      · exact hfr.1

theorem cleanExpired_l1 {V : Type} (now : Nat) (s : CacheState V) :
    (cleanExpiredEntries now s).l1Cache =
      s.l1Cache.filter (fun p => !isExpired now p.2) := by
  simp only [cleanExpiredEntries]
  rw [sweepL3_l1]

theorem cleanExpired_l1_not_expired {V : Type} (now : Nat)
    (s : CacheState V) :
    ∀ kv ∈ (cleanExpiredEntries now s).l1Cache,
      isExpired now kv.2 = false := by
  intro kv hkv
  rw [cleanExpired_l1] at hkv
  have := (List.mem_filter.mp hkv).2
  simpa using this

/-! ### No-eviction lemmas (C5 and C10 machinery) -/

theorem enforceL1Go_id {V : Type} [Inhabited V] (cfg : CacheConfig)
    (env : SerEnv V) (fuel : Nat) (s : CacheState V)
    (h : ¬ s.l1Cache.length > cfg.maxL1Size) :
    enforceL1Go cfg env fuel s = s := by
  cases fuel with
  | zero => rfl
  | succ n =>
      simp only [enforceL1Go]
      rw [if_neg h]

theorem setOp_l1_noevict {V : Type} [Inhabited V] (cfg : CacheConfig)
    (env : SerEnv V) (now : Nat) (k : String) (v : V) (p : CachePriority)
    (ttlArg : Option Nat) (s : CacheState V)
    (h : (mapSet s.l1Cache k (polOnAdd (activePolicy cfg) now
          (createEntry cfg env now k v p ttlArg))).length ≤
        cfg.maxL1Size) :
    (setOp cfg env now k v p ttlArg s).l1Cache =
      mapSet s.l1Cache k (polOnAdd (activePolicy cfg) now
        (createEntry cfg env now k v p ttlArg)) := by
  simp only [setOp, enforceL1Size]
  rw [enforceL1Go_id cfg env _ _ (by dsimp only; omega)]
  split
  · rfl
  · rfl

theorem polOnAdd_fields {V : Type} (pol : Policy) (now : Nat)
    (e : CacheEntry V) :
    (polOnAdd pol now e).key = e.key ∧
    (polOnAdd pol now e).value = e.value ∧
    (polOnAdd pol now e).created = e.created ∧
    (polOnAdd pol now e).ttl = e.ttl := by
  cases pol <;> exact ⟨rfl, rfl, rfl, rfl⟩

theorem isExpired_fresh {V : Type} (pol : Policy) (cfg : CacheConfig)
    (env : SerEnv V) (now : Nat) (k : String) (v : V) (p : CachePriority)
    (ttlArg : Option Nat) :
    isExpired now (polOnAdd pol now
      (createEntry cfg env now k v p ttlArg)) = false := by
  have hc : (polOnAdd pol now
      (createEntry cfg env now k v p ttlArg)).created = now := by
    cases pol <;> rfl
  simp only [isExpired, hc]
  split
  · rfl
  · simp [Nat.sub_self]

theorem jsOrNat_ne_zero (x : Option Nat) (d : Nat) (hd : d ≠ 0) :
    jsOrNat x d ≠ 0 := by
  match x with
  | none => exact hd
  | some 0 => exact hd
  | some (n + 1) => simp [jsOrNat]

theorem mkConfig_defaultTtl_ne_zero (c : CacheConfigInput) :
    (mkConfig c).defaultTtl ≠ 0 := by
  simp only [mkConfig]
  exact jsOrNat_ne_zero _ _ (by omega)

/-! ### Rolling-sample bound lemmas (C7 machinery) -/

theorem demoteToL2_samples {V : Type} [Inhabited V] (cfg : CacheConfig)
    (env : SerEnv V) (e : CacheEntry V) (s : CacheState V)
    (h : samplesOk cfg s) : samplesOk cfg (demoteToL2 cfg env e s) := by
  refine ⟨?_, demoteToL2_cr_le cfg env e s h.2⟩
  rw [demoteToL2_at]
  exact h.1

theorem enforceL1Go_samples {V : Type} [Inhabited V] (cfg : CacheConfig)
    (env : SerEnv V) :
    ∀ (fuel : Nat) (s : CacheState V), samplesOk cfg s →
      samplesOk cfg (enforceL1Go cfg env fuel s) := by
  intro fuel
  induction fuel with
  | zero => intro s h; exact h
  | succ n ih =>
      intro s h
      simp only [enforceL1Go]
      split
      · split
        · exact h
        · rename_i victimKey hvic
          split
          · exact h
          · rename_i victim hget
            apply ih
            have hd := demoteToL2_samples cfg env victim
              { s with l1Cache := mapDelete s.l1Cache victimKey }
              ⟨h.1, h.2⟩
            exact ⟨hd.1, hd.2⟩
      · exact h

theorem promoteToL1_samples {V : Type} [Inhabited V] (cfg : CacheConfig)
    (env : SerEnv V) (now : Nat) (e : CacheEntry V) (s : CacheState V)
    (h : samplesOk cfg s) :
    samplesOk cfg (promoteToL1 cfg env now e s) := by
  simp only [promoteToL1, enforceL1Size]
  apply enforceL1Go_samples
  split
  · exact ⟨h.1, h.2⟩
  · split
    · exact ⟨h.1, h.2⟩
    · exact ⟨h.1, h.2⟩
  · exact ⟨h.1, h.2⟩

theorem recordHitFor_samples {V : Type} (cfg : CacheConfig) (now : Nat)
    (lvl : Level) (k : String) (s : CacheState V) (h : samplesOk cfg s) :
    samplesOk cfg (recordHitFor cfg now lvl k s) := by
  simp only [recordHitFor]
  split
  · exact ⟨pushTrim_length_le h.1, h.2⟩
  · split
    · exact ⟨pushTrim_length_le h.1, h.2⟩
    · exact ⟨pushTrim_length_le h.1, h.2⟩

theorem recordMissFor_samples {V : Type} (cfg : CacheConfig)
    (s : CacheState V) (h : samplesOk cfg s) :
    samplesOk cfg (recordMissFor cfg s) := by
  exact ⟨pushTrim_length_le h.1, h.2⟩

theorem getL3Branch_samples {V : Type} [Inhabited V] (cfg : CacheConfig)
    (env : SerEnv V) (now : Nat) (k : String) (s : CacheState V)
    (h : samplesOk cfg s) :
    samplesOk cfg (getL3Branch cfg env now k s).2 := by
  simp only [getL3Branch]
  split
  · split
    · rename_i diskPath hdp
      have hfr := loadFromDisk_at_cr (V := V) now diskPath s
      have hload : samplesOk cfg (loadFromDisk now diskPath s).2 := by
        refine ⟨?_, ?_⟩
        · rw [hfr.1]; exact h.1
        · rw [hfr.2]; exact h.2
      split
      · dsimp only
        apply recordHitFor_samples
        exact promoteToL1_samples cfg env now _ _ hload
      · exact recordMissFor_samples cfg _ hload
    · exact recordMissFor_samples cfg s h
  · exact recordMissFor_samples cfg s h

theorem getL2Branch_samples {V : Type} [Inhabited V] (cfg : CacheConfig)
    (env : SerEnv V) (now : Nat) (k : String) (s : CacheState V)
    (h : samplesOk cfg s) :
    samplesOk cfg (getL2Branch cfg env now k s).2 := by
  simp only [getL2Branch]
  split
  · split
    · exact getL3Branch_samples cfg env now k s h
    · dsimp only
      split
      · dsimp only
        apply recordHitFor_samples
        exact promoteToL1_samples cfg env now _ _ ⟨h.1, h.2⟩
      · apply recordHitFor_samples
        exact promoteToL1_samples cfg env now _ _ h
  · exact getL3Branch_samples cfg env now k s h

theorem getOp_samples {V : Type} [Inhabited V] (cfg : CacheConfig)
    (env : SerEnv V) (now : Nat) (k : String) (s : CacheState V)
    (h : samplesOk cfg s) :
    samplesOk cfg (getOp cfg env now k s).2 := by
  simp only [getOp]
  split
  · split
    · exact getL2Branch_samples cfg env now k s h
    · exact recordHitFor_samples cfg now .l1 k s h
  · exact getL2Branch_samples cfg env now k s h

theorem enforceL1Size_samples {V : Type} [Inhabited V] (cfg : CacheConfig)
    (env : SerEnv V) (s : CacheState V) (h : samplesOk cfg s) :
    samplesOk cfg (enforceL1Size cfg env s) := by
  simp only [enforceL1Size]
  exact enforceL1Go_samples cfg env _ s h

theorem setOp_samples {V : Type} [Inhabited V] (cfg : CacheConfig)
    (env : SerEnv V) (now : Nat) (k : String) (v : V) (p : CachePriority)
    (ttlArg : Option Nat) (s : CacheState V) (h : samplesOk cfg s) :
    samplesOk cfg (setOp cfg env now k v p ttlArg s) := by
  simp only [setOp]
  have hres := enforceL1Size_samples cfg env
    { s with l1Cache := mapSet s.l1Cache k
                          (polOnAdd (activePolicy cfg) now
                            (createEntry cfg env now k v p ttlArg)) }
    ⟨h.1, h.2⟩
  split
  · exact ⟨hres.1, hres.2⟩
  · exact hres

theorem sweepL3_samples {V : Type} (cfg : CacheConfig) (now : Nat) :
    ∀ (lst : List (String × String)) (s : CacheState V), samplesOk cfg s →
      samplesOk cfg (sweepL3 now lst s) := by
  intro lst
  induction lst with
  | nil => intro s h; exact h
  | cons p rest ih =>
      intro s h
      simp only [sweepL3]
      apply ih
      have hfr := loadFromDisk_at_cr (V := V) now p.2 s
      have hload : samplesOk cfg (loadFromDisk now p.2 s).2 := by
        refine ⟨?_, ?_⟩
        · rw [hfr.1]; exact h.1
        · rw [hfr.2]; exact h.2
      split
      · exact ⟨hload.1, hload.2⟩
      · exact hload

theorem runMaintenance_samples {V : Type} (cfg : CacheConfig) (now : Nat)
    (s : CacheState V) (h : samplesOk cfg s) :
    samplesOk cfg (runMaintenance cfg now s) := by
  simp only [runMaintenance, cleanExpiredEntries]
  have hsweep := sweepL3_samples cfg now s.l3Index
    { s with l1Cache := s.l1Cache.filter (fun p => !isExpired now p.2),
             l2Cache := s.l2Cache.filter (fun p => !isExpired now p.2) }
    ⟨h.1, h.2⟩
  split
  · exact ⟨hsweep.1, hsweep.2⟩
  · exact hsweep

theorem deleteOp_samples {V : Type} (cfg : CacheConfig) (k : String)
    (s : CacheState V) (h : samplesOk cfg s) :
    samplesOk cfg (deleteOp k s).2 := by
  simp only [deleteOp]
  split
  · split
    · exact ⟨h.1, h.2⟩
    · exact ⟨h.1, h.2⟩
  · exact ⟨h.1, h.2⟩

theorem clearOp_samples {V : Type} (cfg : CacheConfig) (s : CacheState V)
    (h : samplesOk cfg s) : samplesOk cfg (clearOp cfg s) := by
  simp only [clearOp]
  split
  · exact ⟨h.1, h.2⟩
  · exact ⟨h.1, h.2⟩

theorem step_samples {V : Type} [Inhabited V] (cfg : CacheConfig)
    (env : SerEnv V) (s : CacheState V) (op : CacheOp V)
    (h : samplesOk cfg s) : samplesOk cfg (step cfg env s op) := by
  cases op with
  | set now k v p ttlArg => exact setOp_samples cfg env now k v p ttlArg s h
  | get now k => exact getOp_samples cfg env now k s h
  | del k => exact deleteOp_samples cfg k s h
  | clear => exact clearOp_samples cfg s h
  | maintain now => exact runMaintenance_samples cfg now s h

/-! ### Claim theorems -/

/-- C1 counterexample: after `set a; set b; set a` with a fast tier of
capacity 1, the first `set a` gets demoted to the compressed tier by
`set b`, and the second `set a` does not purge that stale copy, so key
`a` is resident in the fast AND the compressed tier at once — the
no-duplication claim fails. -/
theorem c1_counterexample :
    ¬ tierUnique (runOps cfgTiny envFix
      [CacheOp.set 0 "a" 1 CachePriority.NORMAL none,
       CacheOp.set 0 "b" 1 CachePriority.NORMAL none,
       CacheOp.set 0 "a" 2 CachePriority.NORMAL none]) := by
  intro h
  exact h.1 "a" (mapHas_iff_mem.mp (by decide))
    (mapHas_iff_mem.mp (by decide))

/-- C1 (amended): single-tier residency (together with tier bookkeeping
consistency) is preserved by every operation except the two that the code
actually breaks it with: a `set` on a key currently resident in the
compressed or disk tier (`set` never purges colder copies), and a `get`
resolved from the disk tier (the rebuilt entry carries fast-tier level, so
`promoteToL1` skips the disk-index cleanup).  `stepSafe` excludes exactly
those two cases. -/
theorem c1_amended_step_preserves_residency {V : Type} [Inhabited V]
    (cfg : CacheConfig) (env : SerEnv V) (s : CacheState V) (op : CacheOp V)
    (h : wfUniq s) (hsafe : stepSafe cfg s op) :
    wfUniq (step cfg env s op) := by
  cases op with
  | set now k v p ttlArg =>
      exact setOp_wfUniq cfg env now k v p ttlArg s h hsafe.1 hsafe.2
  | get now k => exact getOp_wfUniq cfg env now k s h hsafe
  | del k => exact deleteOp_wfUniq k s h
  | clear => exact clearOp_wfUniq cfg s
  | maintain now => exact runMaintenance_wfUniq cfg now s h

/-- C1 witness: the amended preservation theorem applied to a concrete
safe step from the initial state. -/
theorem c1_amended_witness :
    wfUniq (step cfgTiny envFix (initState Nat)
      (CacheOp.set 0 "k" 5 CachePriority.NORMAL none)) :=
  c1_amended_step_preserves_residency cfgTiny envFix (initState Nat) _
    ⟨⟨by simp [initState], by simp [initState]⟩,
      by simp [tierUnique, initState, mapKeys],
      by simp [tierUnique, initState, mapKeys],
      by simp [tierUnique, initState, mapKeys]⟩
    ⟨by simp [initState, mapKeys], by simp [initState, mapKeys]⟩

/-- C2 counterexample: `set k` with a 10 ms TTL at t = 0, then `get k` at
t = 20 returns "not found" as claimed, but the expired entry is NOT
removed: key `k` is still resident in the fast tier afterwards, so the
claim that the key is absent from all tiers after the expired `get` fails
on the code. -/
theorem c2_counterexample :
    (getOp cfgDefault envFix 20 "k"
      (setOp cfgDefault envFix 0 "k" 7 CachePriority.NORMAL (some 10)
        (initState Nat))).1 = none ∧
    mapHas (getOp cfgDefault envFix 20 "k"
      (setOp cfgDefault envFix 0 "k" 7 CachePriority.NORMAL (some 10)
        (initState Nat))).2.l1Cache "k" = true := by
  constructor
  · decide
  · decide

/-- C2 (amended): a `get` on an expired fast-tier entry is a miss, but the
entry stays in the fast tier untouched (`get` only skips it); expired
entries are removed by the maintenance sweep instead, after which no
expired entry remains in the fast tier. -/
theorem c2_amended_expired_entry_not_removed {V : Type} [Inhabited V]
    (cfg : CacheConfig) (env : SerEnv V) (now : Nat) (k : String)
    (s : CacheState V) (e : CacheEntry V)
    (hg1 : mapGet s.l1Cache k = some e) (hexp : isExpired now e = true)
    (hg2 : mapGet s.l2Cache k = none)
    (hdisk : cfg.enableDiskCache = false ∨ mapGet s.l3Index k = none) :
    (getOp cfg env now k s).1 = none ∧
    (getOp cfg env now k s).2.l1Cache = s.l1Cache ∧
    (∀ kv ∈ (cleanExpiredEntries now (getOp cfg env now k s).2).l1Cache,
      isExpired now kv.2 = false) := by
  have heq : getOp cfg env now k s = (none, recordMissFor cfg s) := by
    simp only [getOp, hg1, hexp, if_true, getL2Branch, hg2]
    rcases hdisk with hdc | hl3
    · simp only [getL3Branch, hdc]
      rfl
    · simp only [getL3Branch, hl3]
      split
      · rfl
      · rfl
  refine ⟨by rw [heq], ?_, ?_⟩
  · rw [heq]
    rfl
  · exact cleanExpired_l1_not_expired now _

/-- C2 witness: the amended theorem applied to the concrete expired-entry
state of the counterexample. -/
theorem c2_amended_witness :
    (getOp cfgDefault envFix 20 "k"
      (setOp cfgDefault envFix 0 "k" 7 CachePriority.NORMAL (some 10)
        (initState Nat))).1 = none ∧
    (getOp cfgDefault envFix 20 "k"
      (setOp cfgDefault envFix 0 "k" 7 CachePriority.NORMAL (some 10)
        (initState Nat))).2.l1Cache =
      (setOp cfgDefault envFix 0 "k" 7 CachePriority.NORMAL (some 10)
        (initState Nat)).l1Cache ∧
    (∀ kv ∈ (cleanExpiredEntries 20
        (getOp cfgDefault envFix 20 "k"
          (setOp cfgDefault envFix 0 "k" 7 CachePriority.NORMAL (some 10)
            (initState Nat))).2).l1Cache,
      isExpired 20 kv.2 = false) :=
  c2_amended_expired_entry_not_removed cfgDefault envFix 20 "k" _
    ⟨"k", some 7, 1, CachePriority.NORMAL, 0, 0, 0, 10, none, Level.l1⟩
    (by decide) (by decide) (by decide) (Or.inr (by decide))

/-- C3: with key `k` registered in the disk index but its backing file
missing (a disk I/O failure on read), `get k` returns a miss as the claim
says, but the stale index entry is NOT removed: `loadFromDisk` swallows
the error and returns null, so the catch block in `get` that would delete
the index entry is unreachable — the code contradicts its own cleanup
handler, which is dead code. -/
theorem c3_disk_error_miss_but_index_kept :
    (getOp cfgDefault envFix 5 "k" stateDiskStale).1 = none ∧
    (getOp cfgDefault envFix 5 "k" stateDiskStale).2.l3Index =
      [("k", "./cache/deadbeef.cache")] := by
  constructor
  · decide
  · decide

/-- C4 counterexample: with a fast tier of capacity 1, two `set` calls at
HIGH priority leave the fast tier at 2 entries (no victim can be selected
among pinned entries), so the unconditional capacity claim fails. -/
theorem c4_counterexample :
    cfgTiny.maxL1Size = 1 ∧
    (runSets cfgTiny envFix
      [⟨0, "a", 1, CachePriority.HIGH, none⟩,
       ⟨0, "b", 1, CachePriority.HIGH, none⟩]).l1Cache.length = 2 := by
  constructor
  · decide
  · decide

/-- C4 (amended): after any sequence of `set` calls, each in-memory tier
is within its configured capacity UNLESS every entry it holds is
priority-exempt (HIGH/CRITICAL) — in which case the tier may overflow
because victim selection returns none — and the disk index is always
within its capacity (disk eviction has no pinning). -/
theorem c4_amended_capacity {V : Type} [Inhabited V] (cfg : CacheConfig)
    (env : SerEnv V) (calls : List (SetCall V)) :
    l1CapOk cfg (runSets cfg env calls) ∧
    l2CapOk cfg (runSets cfg env calls) ∧
    l3CapOk cfg (runSets cfg env calls) := by
  have hgen : ∀ (cs : List (SetCall V)) (s : CacheState V),
      l1CapOk cfg s → l2CapOk cfg s → l3CapOk cfg s →
      l1CapOk cfg (cs.foldl
          (fun s1 c => setOp cfg env c.now c.key c.value c.priority
            c.ttlArg s1) s) ∧
      l2CapOk cfg (cs.foldl
          (fun s1 c => setOp cfg env c.now c.key c.value c.priority
            c.ttlArg s1) s) ∧
      l3CapOk cfg (cs.foldl
          (fun s1 c => setOp cfg env c.now c.key c.value c.priority
            c.ttlArg s1) s) := by
    intro cs
    induction cs with
    | nil => intro s h1 h2 h3; exact ⟨h1, h2, h3⟩
    | cons c rest ih =>
        intro s h1 h2 h3
        exact ih _ (setOp_l1cap cfg env _ _ _ _ _ s)
          (setOp_l2cap cfg env _ _ _ _ _ s h2)
          (setOp_l3cap cfg env _ _ _ _ _ s h3)
  exact hgen calls (initState V) (Or.inl (Nat.zero_le _))
    (Or.inl (Nat.zero_le _)) (Nat.zero_le _)

/-- C5 counterexample: under the LFU policy with disk persistence off and
tiers of capacity 1, pinned entries force the freshly set key `k` first
out of the fast tier and then out of the compressed tier, where it is
dropped; the immediately following `get k` misses, so the unconditional
round-trip claim fails. -/
theorem c5_counterexample :
    (getOp cfgLfu envFix 0 "k" (runOps cfgLfu envFix
      [CacheOp.set 0 "a" 10 CachePriority.HIGH none,
       CacheOp.set 0 "b" 20 CachePriority.NORMAL none,
       CacheOp.get 0 "b",
       CacheOp.set 0 "k" 30 CachePriority.NORMAL none])).1 ≠ some 30 := by
  decide

/-- C5 (amended): `set k v` immediately followed by `get k` returns `v`
provided the insertion leaves the fast tier within capacity (so the set
triggers no eviction at all); without that proviso the fresh key itself
can be evicted through the tiers and lost (see the counterexample). -/
theorem c5_amended_round_trip {V : Type} [Inhabited V] (cfg : CacheConfig)
    (env : SerEnv V) (now : Nat) (k : String) (v : V) (s : CacheState V)
    (h : (mapSet s.l1Cache k (polOnAdd (activePolicy cfg) now
        (createEntry cfg env now k v CachePriority.NORMAL none))).length ≤
      cfg.maxL1Size) :
    (getOp cfg env now k
      (setOp cfg env now k v CachePriority.NORMAL none s)).1 = some v := by
  have hl1 := setOp_l1_noevict cfg env now k v CachePriority.NORMAL none s h
  have hget : mapGet
      (setOp cfg env now k v CachePriority.NORMAL none s).l1Cache k =
      some (polOnAdd (activePolicy cfg) now
        (createEntry cfg env now k v CachePriority.NORMAL none)) := by
    rw [hl1]
    exact mapGet_mapSet_self
  simp only [getOp, hget, isExpired_fresh, Bool.false_eq_true, if_false]
  exact (polOnAdd_fields (activePolicy cfg) now _).2.1

/-- C5 witness: the amended round-trip theorem at a concrete input. -/
theorem c5_amended_witness :
    ((mapSet (initState Nat).l1Cache "k"
        (polOnAdd (activePolicy cfgTiny) 0
          (createEntry cfgTiny envFix 0 "k" 42 CachePriority.NORMAL
            none))).length ≤ cfgTiny.maxL1Size) ∧
    (getOp cfgTiny envFix 0 "k"
      (setOp cfgTiny envFix 0 "k" 42 CachePriority.NORMAL none
        (initState Nat))).1 = some 42 :=
  ⟨by decide,
   c5_amended_round_trip cfgTiny envFix 0 "k" 42 (initState Nat)
     (by decide)⟩

/-- C6 counterexample: force one compression (ratio 10/5 = 2), then call
`clear` twice; `getStats` still reports a nonzero average compression
ratio after both calls, because `clear` resets the counters but not the
rolling compression-ratio sample — so the claim that every `getStats`
field is zero after `clear` fails. -/
theorem c6_counterexample :
    (getStats (clearOp cfgCompress (clearOp cfgCompress
      (runOps cfgCompress envFixBig
        [CacheOp.set 0 "a" 1 CachePriority.NORMAL none,
         CacheOp.set 0 "b" 2 CachePriority.NORMAL none])))).ratioAvg ≠
      0 := by
  have h : (getStats (clearOp cfgCompress (clearOp cfgCompress
      (runOps cfgCompress envFixBig
        [CacheOp.set 0 "a" 1 CachePriority.NORMAL none,
         CacheOp.set 0 "b" 2 CachePriority.NORMAL none])))).ratioAvg =
      (((10 : Nat) : Rat) / ((5 : Nat) : Rat) + 0) / ((1 : Nat) : Rat) :=
    rfl
  rw [h]
  norm_num

/-- C6 (amended): `clear` is idempotent as a state transformer, leaves all
three sizes at zero (the disk-index size relies on the disk tier being
enabled or the index being empty, which holds in every reachable
configuration), and zeroes all statistics counters and the hit rate — but
the rolling samples are not cleared, so the derived `avgAccessTime` and
average compression ratio are unchanged rather than reset. -/
theorem c6_amended_clear {V : Type} (cfg : CacheConfig) (s : CacheState V)
    (h : cfg.enableDiskCache = true ∨ s.l3Index = []) :
    clearOp cfg (clearOp cfg s) = clearOp cfg s ∧
    getSizes (clearOp cfg s) = (0, 0, 0) ∧
    (getStats (clearOp cfg s)).counters = zeroStats ∧
    (getStats (clearOp cfg s)).hitRate = 0 ∧
    (getStats (clearOp cfg s)).avgAccessTime =
      (getStats s).avgAccessTime ∧
    (getStats (clearOp cfg s)).ratioAvg = (getStats s).ratioAvg := by
  refine ⟨?_, ?_, ?_, ?_, ?_, ?_⟩
  · simp only [clearOp]
    split
    · rfl
    · rfl
  · simp only [clearOp, getSizes]
    split
    · rfl
    · rcases h with h | h
      · rename_i hd
        rw [h] at hd
        exact absurd rfl hd
      · simp [h]
  · simp only [clearOp]
    split
    · rfl
    · rfl
  · simp only [clearOp, getStats]
    split
    · rename_i hgt
      exact absurd hgt (by simp [zeroStats])
    · rfl
  · simp only [clearOp, getStats]
    cases hdc : cfg.enableDiskCache <;> simp [hdc]
  · simp only [clearOp, getStats]
    cases hdc : cfg.enableDiskCache <;> simp [hdc]

/-- C6 witness: the amended clear theorem at the initial state. -/
theorem c6_amended_witness :
    clearOp cfgTiny (clearOp cfgTiny (initState Nat)) =
      clearOp cfgTiny (initState Nat) ∧
    getSizes (clearOp cfgTiny (initState Nat)) = (0, 0, 0) ∧
    (getStats (clearOp cfgTiny (initState Nat))).counters = zeroStats ∧
    (getStats (clearOp cfgTiny (initState Nat))).hitRate = 0 ∧
    (getStats (clearOp cfgTiny (initState Nat))).avgAccessTime =
      (getStats (initState Nat)).avgAccessTime ∧
    (getStats (clearOp cfgTiny (initState Nat))).ratioAvg =
      (getStats (initState Nat)).ratioAvg :=
  c6_amended_clear cfgTiny (initState Nat) (Or.inr rfl)

/-- C7 counterexample: with the rolling-sample window configured to 1, two
compressions leave the compression-ratio sample at 2 entries — that sample
is bounded by the hard-coded constant 100, not by the configured window —
so the claim that both samples respect the configured window fails. -/
theorem c7_counterexample :
    cfgWin1.accessPatternWindowSize = 1 ∧
    ¬ ((runOps cfgWin1 envFixBig
        [CacheOp.set 0 "a" 1 CachePriority.NORMAL none,
         CacheOp.set 0 "b" 2 CachePriority.NORMAL none,
         CacheOp.set 0 "c" 3 CachePriority.NORMAL none]).compressionRatios.length ≤
      cfgWin1.accessPatternWindowSize) := by
  constructor
  · decide
  · decide

/-- C7 (amended): after any sequence of operations from the initial state,
the recent-access-time sample is bounded by the configured window size,
while the compression-ratio sample is bounded by the hard-coded constant
100 (not by the configured window). -/
theorem c7_amended_sample_bounds {V : Type} [Inhabited V]
    (cfg : CacheConfig) (env : SerEnv V) (ops : List (CacheOp V)) :
    samplesOk cfg (runOps cfg env ops) := by
  have hgen : ∀ (l : List (CacheOp V)) (s : CacheState V), samplesOk cfg s →
      samplesOk cfg (l.foldl (step cfg env) s) := by
    intro l
    induction l with
    | nil => intro s h; exact h
    | cons op rest ih =>
        intro s h
        exact ih _ (step_samples cfg env s op h)
  exact hgen ops (initState V) ⟨Nat.zero_le _, Nat.zero_le _⟩

/-- C8: the LRU `selectVictim` agrees exactly with the specification rule:
among entries below HIGH priority it returns the first (in iteration
order) whose `accessed` stamp is minimal, and none when every entry is
priority-exempt. -/
theorem c8_lru_victim_spec {V : Type} (entries : JsMap (CacheEntry V)) :
    selectVictim Policy.lru entries = lruVictimSpec entries := by
  simp only [selectVictim, selectVictimBy, lruVictimSpec]
  rw [victimFold_filter]
  exact victimFold_find _ (fun p hp => (List.mem_filter.mp hp).2)

theorem updatePredictiveScores_single (p : String) (sc : Rat)
    (h : 1 < sc) :
    updatePredictiveScores [(p, sc)] = [(p, sc * (9 / 10 : Rat))] := by
  simp only [updatePredictiveScores, List.filterMap]
  rw [if_pos h]

/-- C9 counterexample: a tracked score of 2 (two recorded accesses of the
same prefix, a reachable predictive-cache state) decays for seven
maintenance runs; the seventh run sees 1.062882 > 1, so it keeps the entry
and decays it to 0.9565938 — a retained score at or below 1, contradicting
the claim that after a run no retained score is ≤ 1. -/
theorem c9_counterexample :
    mapGet (updatePredictiveScores (updatePredictiveScores
      (updatePredictiveScores (updatePredictiveScores
        (updatePredictiveScores (updatePredictiveScores
          (updatePredictiveScores [("p", (2 : Rat))])))))) ) "p" =
      some ((4782969 : Rat) / 5000000) ∧
    ((4782969 : Rat) / 5000000) ≤ 1 := by
  have h1 := updatePredictiveScores_single "p" 2 (by norm_num)
  have e1 : (2 : Rat) * (9 / 10) = 9 / 5 := by norm_num
  have h2 := updatePredictiveScores_single "p" (9 / 5) (by norm_num)
  have e2 : (9 / 5 : Rat) * (9 / 10) = 81 / 50 := by norm_num
  have h3 := updatePredictiveScores_single "p" (81 / 50) (by norm_num)
  have e3 : (81 / 50 : Rat) * (9 / 10) = 729 / 500 := by norm_num
  have h4 := updatePredictiveScores_single "p" (729 / 500) (by norm_num)
  have e4 : (729 / 500 : Rat) * (9 / 10) = 6561 / 5000 := by norm_num
  have h5 := updatePredictiveScores_single "p" (6561 / 5000) (by norm_num)
  have e5 : (6561 / 5000 : Rat) * (9 / 10) = 59049 / 50000 := by norm_num
  have h6 := updatePredictiveScores_single "p" (59049 / 50000)
    (by norm_num)
  have e6 : (59049 / 50000 : Rat) * (9 / 10) = 531441 / 500000 := by
    norm_num
  have h7 := updatePredictiveScores_single "p" (531441 / 500000)
    (by norm_num)
  have e7 : (531441 / 500000 : Rat) * (9 / 10) = 4782969 / 5000000 := by
    norm_num
  rw [h1, e1, h2, e2, h3, e3, h4, e4, h5, e5, h6, e6, h7, e7]
  constructor
  · simp [mapGet]
  · norm_num

/-- C9 (amended): a maintenance decay pass keeps exactly the scores that
were strictly above 1 BEFORE the decay, multiplying each by 0.9; scores at
or below 1 are dropped.  Consequently every retained score exceeds 0.9,
but a retained score may be at or below 1 (when the pre-decay score was in
the interval (1, 10/9]). -/
theorem c9_amended_decay_spec (m : JsMap Rat) :
    (∀ p sc, (p, sc) ∈ updatePredictiveScores m ↔
      ∃ s0, (p, s0) ∈ m ∧ 1 < s0 ∧ sc = s0 * (9 / 10 : Rat)) ∧
    ∀ q ∈ updatePredictiveScores m, (9 / 10 : Rat) < q.2 := by
  have hchar : ∀ p sc, (p, sc) ∈ updatePredictiveScores m ↔
      ∃ s0, (p, s0) ∈ m ∧ 1 < s0 ∧ sc = s0 * (9 / 10 : Rat) := by
    intro p sc
    simp only [updatePredictiveScores, List.mem_filterMap]
    constructor
    · rintro ⟨⟨a1, a2⟩, ha, hfa⟩
      by_cases h12 : (1 : Rat) < a2
      · rw [if_pos h12] at hfa
        simp only [Option.some.injEq, Prod.mk.injEq] at hfa
        refine ⟨a2, ?_, h12, hfa.2.symm⟩
        rw [← hfa.1]
        exact ha
      · rw [if_neg h12] at hfa
        exact absurd hfa (by simp)
    · rintro ⟨s0, hs0, hlt, rfl⟩
      refine ⟨(p, s0), hs0, ?_⟩
      rw [if_pos hlt]
  refine ⟨hchar, ?_⟩
  intro q hq
  obtain ⟨s0, _, hlt, heq⟩ := (hchar q.1 q.2).mp (by rwa [Prod.mk.eta])
  rw [heq]
  have h910 : (0 : Rat) < 9 / 10 := by norm_num
  calc (9 / 10 : Rat) = 1 * (9 / 10) := by rw [one_mul]
    _ < s0 * (9 / 10) := mul_lt_mul_of_pos_right hlt h910

/-- C9 witness: the characterization applied to the concrete score map
with one entry of score 2. -/
theorem c9_amended_witness :
    ("p", (9 : Rat) / 5) ∈ updatePredictiveScores [("p", (2 : Rat))] ∧
    (9 / 10 : Rat) < (9 : Rat) / 5 := by
  have hchar := c9_amended_decay_spec [("p", (2 : Rat))]
  have hmem : ("p", (9 : Rat) / 5) ∈
      updatePredictiveScores [("p", (2 : Rat))] :=
    (hchar.1 "p" ((9 : Rat) / 5)).mpr
      ⟨2, by simp, by norm_num, by norm_num⟩
  exact ⟨hmem, hchar.2 _ hmem⟩

/-- C10: an entry created through `set` always carries a TTL: the stored
entry's `ttl` is `ttlArg || defaultTtl`, so a missing or zero TTL argument
yields the configured default (which constructor resolution makes nonzero),
a nonzero argument is kept, the result is never the falsy 0 that
`isExpired` treats as "never expires", and some clock value expires the
entry.  Stated for a `set` that triggers no eviction so the entry can be
read back from the fast tier. -/
theorem c10_set_ttl_defaulting {V : Type} [Inhabited V]
    (c : CacheConfigInput) (env : SerEnv V) (now : Nat) (k : String)
    (v : V) (p : CachePriority) (ttlArg : Option Nat) (s : CacheState V)
    (h : (mapSet s.l1Cache k (polOnAdd (activePolicy (mkConfig c)) now
        (createEntry (mkConfig c) env now k v p ttlArg))).length ≤
      (mkConfig c).maxL1Size) :
    ∃ e, mapGet (setOp (mkConfig c) env now k v p ttlArg s).l1Cache k =
        some e ∧
      e.ttl = jsOrNat ttlArg (mkConfig c).defaultTtl ∧
      ((ttlArg = none ∨ ttlArg = some 0) →
        e.ttl = (mkConfig c).defaultTtl) ∧
      e.ttl ≠ 0 ∧ (∃ t, isExpired t e = true) := by
  refine ⟨polOnAdd (activePolicy (mkConfig c)) now
    (createEntry (mkConfig c) env now k v p ttlArg), ?_, ?_, ?_, ?_, ?_⟩
  · rw [setOp_l1_noevict (mkConfig c) env now k v p ttlArg s h]
    exact mapGet_mapSet_self
  · exact (polOnAdd_fields _ _ _).2.2.2
  · intro hcase
    rw [(polOnAdd_fields _ _ _).2.2.2]
    rcases hcase with rfl | rfl
    · rfl
    · rfl
  · rw [(polOnAdd_fields _ _ _).2.2.2]
    exact jsOrNat_ne_zero _ _ (mkConfig_defaultTtl_ne_zero c)
  · have hcr : (polOnAdd (activePolicy (mkConfig c)) now
        (createEntry (mkConfig c) env now k v p ttlArg)).created = now :=
      (polOnAdd_fields _ _ _).2.2.1
    have hne : (polOnAdd (activePolicy (mkConfig c)) now
        (createEntry (mkConfig c) env now k v p ttlArg)).ttl ≠ 0 := by
      rw [(polOnAdd_fields _ _ _).2.2.2]
      exact jsOrNat_ne_zero _ _ (mkConfig_defaultTtl_ne_zero c)
    refine ⟨now + (polOnAdd (activePolicy (mkConfig c)) now
      (createEntry (mkConfig c) env now k v p ttlArg)).ttl + 1, ?_⟩
    simp only [isExpired, hcr]
    rw [if_neg hne]
    simp only [decide_eq_true_eq]
    omega

/-- C10 witness: the TTL-defaulting theorem at a concrete `set` with
`ttl = 0` from the initial state. -/
theorem c10_set_ttl_witness :
    ∃ e, mapGet (setOp (mkConfig { maxL1Size := some 1, enableDiskCache := some false }) envFix 0 "k" 7
        CachePriority.NORMAL (some 0) (initState Nat)).l1Cache "k" =
        some e ∧
      e.ttl = jsOrNat (some 0)
        (mkConfig { maxL1Size := some 1, enableDiskCache := some false }).defaultTtl ∧
      ((some 0 = (none : Option Nat) ∨ (some 0 : Option Nat) = some 0) →
        e.ttl = (mkConfig { maxL1Size := some 1, enableDiskCache := some false }).defaultTtl) ∧
      e.ttl ≠ 0 ∧ (∃ t, isExpired t e = true) :=
  c10_set_ttl_defaulting
    { maxL1Size := some 1, enableDiskCache := some false } envFix 0 "k" 7
    CachePriority.NORMAL (some 0) (initState Nat) (by decide)
